import Mathlib

/-!
Verification of the se_agent orchestration core.

This file shallowly embeds the core of the `se_agent` repository
(`core/session_manager.py`, `core/tool_registry.py`, `core/workspace_resolver.py`,
`mcp/artifact_registry.py`, `core/agent.py`) as executable Lean definitions and
proves or refutes the claims of the design specification against them.

Modelling conventions:
* Python dicts are insertion-ordered association lists `List (String × _)`.
* Python `None` becomes `Option.none`; truthiness tests (`or`, `if x:`) are
  modelled explicitly where the source relies on them.
* Python exceptions become `Except` results.
* External library calls (the `re` module, the langgraph `MemorySaver`) are
  uninterpreted function parameters.
* `uuid4()` and wall-clock timestamps are modelled as explicit inputs.
-/

namespace Py

/-- Python `str.strip()` (the inputs reaching it in the modelled code are
plain ASCII, for which trimming ASCII whitespace at both ends matches).
Implemented by structural recursion over the character list so that closed
instances reduce inside the kernel. -/
def strip (s : String) : String :=
  ⟨((s.data.dropWhile Char.isWhitespace).reverse.dropWhile Char.isWhitespace).reverse⟩

/-- Python `str.lower()` (ASCII case folding, structural). -/
def lower (s : String) : String := ⟨s.data.map Char.toLower⟩

/-- Python `x or default` for an optional string: `None` and `""` are falsy. -/
def orStr (x : Option String) (d : String) : String :=
  match x with
  | some s => if s = "" then d else s
  | none => d

/-- Python `a or b` for two optional strings (used for `package_name or active`). -/
def orOpt (a b : Option String) : Option String :=
  match a with
  | some s => if s = "" then b else some s
  | none => b

/-- First-match association-list lookup, the model of `dict.get` (Python dict
keys are unique, so first match equals the dict entry). -/
def alookup (k : String) : List (String × β) → Option β
  | [] => none
  | (k0, v) :: rest => if k0 = k then some v else alookup k rest

/-- Dict assignment `d[k] = v`: replace in place, or append for a fresh key
(insertion order preserved, as for Python dicts). -/
def aset (k : String) (v : β) : List (String × β) → List (String × β)
  | [] => [(k, v)]
  | (k0, v0) :: rest => if k0 = k then (k0, v) :: rest else (k0, v0) :: aset k v rest

/-- `dict.setdefault(k, v)`. -/
def asetdefault (k : String) (v : β) (d : List (String × β)) : List (String × β) :=
  match alookup k d with
  | some _ => d
  | none => d ++ [(k, v)]

/-- `dict.pop(k, None)`: remove the entry if present. -/
def apop (k : String) : List (String × β) → List (String × β)
  | [] => []
  | (k0, v0) :: rest => if k0 = k then rest else (k0, v0) :: apop k rest

/-- Python `s.split(",")` (structural; splitting on the single comma
character, as used for list-typed answers). -/
def splitCommaAux : List Char → List Char → List String
  | [], acc => [⟨acc.reverse⟩]
  | c :: rest, acc =>
    if c = ',' then ⟨acc.reverse⟩ :: splitCommaAux rest []
    else splitCommaAux rest (c :: acc)

/-- Python `s.split(",")`. -/
def splitComma (s : String) : List String := splitCommaAux s.data []

/-- Helper for `digitRun`: scan a digit/underscore run in which every
underscore must be followed by a digit and the run must end in a digit. -/
def digitRunAux : List Char → Bool
  | [] => true
  | [c] => c.isDigit
  | c :: d :: rest =>
    if c.isDigit then digitRunAux (d :: rest)
    else if c = '_' then d.isDigit && digitRunAux (d :: rest)
    else false

/-- A run of decimal digits as accepted inside Python `int()`/`float()`
string conversion: nonempty, starting and ending with a digit, with single
underscores allowed between digits. -/
def digitRun (cs : List Char) : Bool :=
  match cs with
  | [] => false
  | c :: _ => c.isDigit && digitRunAux cs

/-- Numeric value of a digit/underscore run (underscores are separators). -/
def digitsVal (cs : List Char) : Nat :=
  cs.foldl (fun acc c => if c.isDigit then acc * 10 + (c.toNat - '0'.toNat) else acc) 0

/-- Model of Python `int(s)` on an already-stripped string: optional sign
followed by a digit run. Returns `none` where Python raises `ValueError`. -/
def parseInt (s : String) : Option Int :=
  match s.data with
  | '+' :: rest => if digitRun rest then some (Int.ofNat (digitsVal rest)) else none
  | '-' :: rest => if digitRun rest then some (-(Int.ofNat (digitsVal rest))) else none
  | rest => if digitRun rest then some (Int.ofNat (digitsVal rest)) else none

/-- Exponent part of a float literal: `(e|E) (+|-)? digitRun`. -/
def floatExpOk : List Char → Bool
  | [] => true
  | e :: rest =>
    if e = 'e' ∨ e = 'E' then
      match rest with
      | '+' :: ds => digitRun ds
      | '-' :: ds => digitRun ds
      | ds => digitRun ds
    else false

/-- Mantissa of a float literal: `digits [. [digits]]` or `. digits`. -/
def floatMantissaOk (cs : List Char) : Bool :=
  match cs.span (fun c => c ≠ '.') with
  | (intPart, []) => digitRun intPart
  | (intPart, _dot :: fracTail) =>
    let (fracPart, rest) := fracTail.span (fun c => c ≠ '.')
    rest.isEmpty &&
      (if intPart.isEmpty then digitRun fracPart
       else digitRun intPart && (fracPart.isEmpty || digitRun fracPart))

/-- Model of Python `float(s)` syntax acceptance on an already-stripped
string (decimal forms, exponents, and the special words `inf`, `infinity`,
`nan`).  Only acceptance matters to the modelled code: the numeric value of
a float answer is never inspected, so an accepted literal is kept verbatim. -/
def floatLit (s : String) : Bool :=
  let body :=
    match s.data with
    | '+' :: rest => rest
    | '-' :: rest => rest
    | rest => rest
  let low := Py.lower ⟨body⟩
  if low = "inf" ∨ low = "infinity" ∨ low = "nan" then true
  else
    match body.span (fun c => c ≠ 'e' ∧ c ≠ 'E') with
    | (mant, []) => floatMantissaOk mant
    | (mant, expPart) => floatMantissaOk mant && floatExpOk expPart

end Py


namespace SessionM

/-- A typed answer value as produced by `record_and_advance`'s coercion
(`int | float | bool | list | text`).  A float answer is kept as its accepted
literal: no modelled operation inspects the numeric value of a float. -/
inductive SValue where
  | vint (n : Int)
  | vfloat (lit : String)
  | vbool (b : Bool)
  | vlist (xs : List String)
  | vtext (s : String)
deriving DecidableEq, Repr

/-- Python `str(value)` for the values that can appear in a `validate.enum`
list (used only to build the enum-violation error message). The rendering of
a list value is approximated; no claim inspects that message's text. -/
def svStr : SValue → String
  | .vint n => toString n
  | .vfloat lit => lit
  | .vbool b => if b then "True" else "False"
  | .vlist xs => toString xs
  | .vtext s => s

/-- One step dict of a session script: `{key, ask, type, ...}`. -/
structure StepSpec where
  key : Option String
  ask : Option String
  type : Option String
deriving DecidableEq, Repr

/-- One `validate` entry (`{enum: [...], regex: "..."}`); a field is `none`
when the key is absent from the dict. -/
structure ValidateSpec where
  enum : Option (List SValue)
  regex : Option String
deriving DecidableEq, Repr

/-- The `session` sub-dict of a v2 spec. -/
structure SessionPart where
  type : Option String
  steps : Option (List StepSpec)
  validate : Option (List (String × ValidateSpec))
deriving DecidableEq, Repr

/-- The `artifact` sub-dict of a spec (templates are opaque strings here;
jinja rendering is outside the modelled core). -/
structure ArtifactSpec where
  type : Option String
  nameTemplate : Option String
  contentTemplate : Option String
deriving DecidableEq, Repr

/-- A prompt spec dict: v1 carries `vars`, v2 carries `session`.  A `none`
field models an absent key. -/
structure PromptSpec where
  title : Option String
  vars : Option (List String)
  sessionPart : Option SessionPart
  topSteps : Option (List StepSpec)
  artifact : Option ArtifactSpec
deriving DecidableEq, Repr

/-- The `Session` dataclass.  The freeform-facilitator fields
(`llm_mode`, `llm_seed`, `llm_style`, `transcript`, `attachments`) are not
modelled: no modelled operation reads them. -/
structure Session where
  sid : String
  spec : PromptSpec
  type : String
  step : Nat
  answers : List (String × SValue)
  promptName : String
deriving DecidableEq, Repr

/-- `x or y or []` over two optional step lists (`None` and `[]` are falsy). -/
def firstNonEmpty (a b : Option (List StepSpec)) : List StepSpec :=
  match a with
  | some (x :: xs) => x :: xs
  | _ =>
    match b with
    | some (y :: ys) => y :: ys
    | _ => []

/-- `Session.steps`: `(spec.get("session") or {}).get("steps") or
spec.get("steps") or []`. -/
def Session.steps (s : Session) : List StepSpec :=
  firstNonEmpty (s.spec.sessionPart.bind (fun sp => sp.steps)) s.spec.topSteps

/-- `Session.total`. -/
def Session.total (s : Session) : Nat := s.steps.length

/-- `SessionManager._normalize_spec`: a v2 spec (with a `session` key) passes
through; a v1 vars-only spec is wrapped into an interview script. -/
def normalizeSpec (spec : PromptSpec) : PromptSpec :=
  match spec.sessionPart with
  | some _ => spec
  | none =>
    let vars := spec.vars.getD []
    let steps := vars.map (fun v =>
      { key := some v
        ask := some ("Provide a value for \x27" ++ v ++ "\x27.")
        type := some "text" : StepSpec })
    { title := spec.title
      vars := none
      sessionPart := some { type := some "interview", steps := some steps, validate := none }
      topSteps := none
      artifact := some
        { type := some "interview_result"
          nameTemplate := some "Interview \x7b\x7b title or \x27Result\x27 \x7d\x7d \x7b\x7b now \x7d\x7d"
          contentTemplate := some "\x7b\x7b answers | tojson(indent=2) \x7d\x7d" } }

/-- `SessionManager.start`, modelled at session-construction level: spec
normalization, session type, and cursor initialisation (`step = 0`).  The
`uuid4` session id is an explicit input; persisting the new session into the
package workspace and snapshotting attachments do not touch the cursor. -/
def start (promptSpec : PromptSpec) (sid : String) (promptName : String) : Session :=
  let spec := normalizeSpec promptSpec
  let t := Py.orStr (spec.sessionPart.bind (fun sp => sp.type)) "interview"
  { sid := sid, spec := spec, type := t, step := 0, answers := [], promptName := promptName }

/-- `SessionManager.next_prompt`. -/
def nextPrompt (sess : Session) : Option String :=
  if sess.step ≥ sess.total then none
  else
    match sess.steps.get? sess.step with
    | none => none
    | some q =>
      let k := q.key.getD "q"
      some (Py.orStr q.ask ("Provide a value for \x27" ++ k ++ "\x27."))

/-- The per-type coercion inside `record_and_advance`; `none` models the
`except Exception` branch (Python `int()`/`float()` raising `ValueError`). -/
def coerce (typ : String) (ans : String) : Option SValue :=
  if typ = "int" then (Py.parseInt ans).map SValue.vint
  else if typ = "float" then
    if Py.floatLit ans then some (SValue.vfloat ans) else none
  else if typ = "bool" then
    some (SValue.vbool (decide (Py.lower ans ∈ ["y", "yes", "true", "1"])))
  else if typ = "list" then
    some (SValue.vlist (((Py.splitComma ans).map Py.strip).filter (fun x => x ≠ "")))
  else some (SValue.vtext ans)

/-- The `validate` checks of `record_and_advance` (enum first, then regex;
the regex is applied only to string-typed values).  `re.match` is the
uninterpreted parameter `regexMatch`.  A validate entry is falsy (skipped)
when it carries neither `enum` nor `regex`. -/
def validateVal (regexMatch : String → String → Bool) (v : ValidateSpec) (val : SValue) :
    Option String :=
  if v.enum.isSome ∨ v.regex.isSome then
    match v.enum with
    | some es =>
      if val ∉ es then
        some ("Value must be one of: " ++ String.intercalate ", " (es.map svStr))
      else
        match v.regex with
        | some rx =>
          match val with
          | .vtext sv => if regexMatch rx sv then none else some ("Does not match pattern: " ++ rx)
          | _ => none
        | none => none
    | none =>
      match v.regex with
      | some rx =>
        match val with
        | .vtext sv => if regexMatch rx sv then none else some ("Does not match pattern: " ++ rx)
        | _ => none
      | none => none
  else none

/-- `SessionManager.record_and_advance`.  Returns `Except.error` exactly where
Python would raise (`sess.steps[sess.step - 1]` out of range); otherwise
`.ok (errorText?, updatedSession)`. -/
def recordAndAdvance (regexMatch : String → String → Bool) (sess : Session)
    (userAnswer : String) : Except String (Option String × Session) :=
  if sess.step = 0 then .ok (none, sess)
  else
    match sess.steps.get? (sess.step - 1) with
    | none => .error "IndexError: list index out of range"
    | some prev =>
      let key := Py.orStr prev.key ("q" ++ Nat.repr sess.step)
      let typ := Py.lower (Py.orStr prev.type "text")
      let ans := Py.strip userAnswer
      match coerce typ ans with
      | none => .ok (some ("Expected " ++ typ ++ ". Try again."), sess)
      | some val =>
        let vmap := (sess.spec.sessionPart.bind (fun sp => sp.validate)).getD []
        match Py.alookup key vmap with
        | some v =>
          match validateVal regexMatch v val with
          | some err => .ok (some err, sess)
          | none => .ok (none, { sess with answers := Py.aset key val sess.answers })
        | none => .ok (none, { sess with answers := Py.aset key val sess.answers })

/-- `SessionManager.advance`. -/
def advance (sess : Session) : Session :=
  if sess.step < sess.total then { sess with step := sess.step + 1 } else sess

/-- `SessionManager.finished`. -/
def finished (sess : Session) : Bool := decide (sess.step ≥ sess.total)

/-- A degenerate stand-in for `re.match` usable in closed statements (the
modelled scenarios never reach a regex check). -/
def rmNever : String → String → Bool := fun _ _ => false

/-- The two-step script of the specification's scripted-flow example:
steps `[{key:"a",type:"int"},{key:"b",type:"text"}]`. -/
def specAB : PromptSpec :=
  { title := some "AB"
    vars := none
    sessionPart := some
      { type := some "interview"
        steps := some
          [ { key := some "a", ask := some "Value for a?", type := some "int" }
          , { key := some "b", ask := some "Value for b?", type := some "text" } ]
        validate := none }
    topSteps := none
    artifact := none }

/-- The session started from `specAB`. -/
def sessAB : Session := start specAB "sid-1" "ab-prompt"

end SessionM

namespace SessionM

/-- Appending a nonempty string yields a nonempty string. -/
theorem str_append_ne_empty (a b : String) (h : b.data ≠ []) : a ++ b ≠ "" := by
  intro hc
  have hd := congrArg String.data hc
  simp only [String.data_append] at hd
  exact h (List.append_eq_nil.mp hd).2

/-- The step list only depends on the spec. -/
theorem steps_congr {s t : Session} (h : s.spec = t.spec) : s.steps = t.steps := by
  unfold Session.steps; rw [h]

/-- The step count only depends on the spec. -/
theorem total_congr {s t : Session} (h : s.spec = t.spec) : s.total = t.total := by
  unfold Session.total; rw [steps_congr h]

/-- Every non-raising `record_and_advance` call leaves the cursor and the
spec of the session unchanged (only `answers` may change). -/
theorem recordAndAdvance_ok_inv (rm : String → String → Bool) (sess : Session) (ua : String)
    (r : Option String) (s2 : Session)
    (h : recordAndAdvance rm sess ua = .ok (r, s2)) :
    s2.step = sess.step ∧ s2.spec = sess.spec := by
  unfold recordAndAdvance at h
  split at h
  · simp_all
  · split at h
    · simp_all
    · dsimp only at h
      split at h
      · simp_all
      · split at h
        · split at h
          · simp_all
          · simp only [Except.ok.injEq, Prod.mk.injEq] at h
            obtain ⟨-, h2⟩ := h
            subst h2
            exact ⟨rfl, rfl⟩
        · simp only [Except.ok.injEq, Prod.mk.injEq] at h
          obtain ⟨-, h2⟩ := h
          subst h2
          exact ⟨rfl, rfl⟩

/-- A failing coercion returns a non-empty error text and the unchanged
session. -/
theorem rra_coerce_fail (rm : String → String → Bool) (sess : Session) (ua : String)
    (prev : StepSpec) (h0 : sess.step ≠ 0)
    (hget : sess.steps.get? (sess.step - 1) = some prev)
    (hco : coerce (Py.lower (Py.orStr prev.type "text")) (Py.strip ua) = none) :
    ∃ e, e ≠ "" ∧ recordAndAdvance rm sess ua = .ok (some e, sess) := by
  refine ⟨"Expected " ++ Py.lower (Py.orStr prev.type "text") ++ ". Try again.", ?_, ?_⟩
  · have hne : ("Expected " ++ Py.lower (Py.orStr prev.type "text")) ++ ". Try again." ≠ "" :=
      str_append_ne_empty _ _ (by decide)
    simpa [String.append_assoc] using hne
  · unfold recordAndAdvance
    rw [if_neg h0, hget]
    dsimp only
    rw [hco]

/-- A successful coercion with no applicable validate entry stores the typed
value under the previous step's key and moves nothing else. -/
theorem rra_coerce_success (rm : String → String → Bool) (sess : Session) (ua : String)
    (prev : StepSpec) (val : SValue) (h0 : sess.step ≠ 0)
    (hget : sess.steps.get? (sess.step - 1) = some prev)
    (hco : coerce (Py.lower (Py.orStr prev.type "text")) (Py.strip ua) = some val)
    (hval : Py.alookup (Py.orStr prev.key ("q" ++ Nat.repr sess.step))
        ((sess.spec.sessionPart.bind fun sp => sp.validate).getD []) = none) :
    recordAndAdvance rm sess ua =
      .ok (none, { sess with
        answers := Py.aset (Py.orStr prev.key ("q" ++ Nat.repr sess.step))
          val sess.answers }) := by
  unfold recordAndAdvance
  rw [if_neg h0, hget]
  dsimp only
  rw [hco]
  dsimp only
  rw [hval]

/-- The session of the scripted example after one `advance` and a recorded
integer answer `5`. -/
def sessAB2 : Session :=
  { sid := "sid-1", spec := specAB, type := "interview", step := 1,
    answers := [("a", SValue.vint 5)], promptName := "ab-prompt" }

end SessionM

/-- C2 counterexample: on the scripted example session, `record_and_advance`
called before any `advance` returns `None` (no error at all) rather than the
non-empty error string the claim demands, because of the early
`if sess.step == 0: return None` guard. -/
theorem claim_C2_counterexample :
    ¬ ∃ e s2, e ≠ "" ∧
      SessionM.recordAndAdvance SessionM.rmNever SessionM.sessAB "notanint"
        = .ok (some e, s2) := by
  rintro ⟨e, s2, -, h⟩
  have h0 : SessionM.recordAndAdvance SessionM.rmNever SessionM.sessAB "notanint"
      = .ok (none, SessionM.sessAB) := by rfl
  rw [h0] at h
  simp at h

/-- C2 (amended): on the scripted spec `[{key:"a",type:"int"},{key:"b",type:"text"}]`,
`next_prompt` before any advance returns step 0's ask text;
`record_and_advance` before any `advance` is a no-op returning no error and
leaving `answers == {}` (the step-0 guard); after one `advance`,
`record_and_advance "5"` returns no error and stores the typed int
`answers["a"] == 5`.  In general a raw answer is coerced per the *previous*
step's declared type: a failing coercion returns a non-empty error string and
leaves the session (step and answers) unchanged, and a successful coercion
(with no validate entry for the key) stores the typed value. -/
theorem claim_C2 :
    SessionM.nextPrompt SessionM.sessAB = some "Value for a?"
    ∧ SessionM.recordAndAdvance SessionM.rmNever SessionM.sessAB "notanint"
        = .ok (none, SessionM.sessAB)
    ∧ SessionM.sessAB.answers = []
    ∧ SessionM.recordAndAdvance SessionM.rmNever (SessionM.advance SessionM.sessAB) "5"
        = .ok (none, SessionM.sessAB2)
    ∧ (∀ rm sess ua prev, sess.step ≠ 0 →
        (SessionM.Session.steps sess).get? (sess.step - 1) = some prev →
        SessionM.coerce (Py.lower (Py.orStr prev.type "text")) (Py.strip ua) = none →
        ∃ e, e ≠ "" ∧ SessionM.recordAndAdvance rm sess ua = .ok (some e, sess))
    ∧ (∀ rm sess ua prev val, sess.step ≠ 0 →
        (SessionM.Session.steps sess).get? (sess.step - 1) = some prev →
        SessionM.coerce (Py.lower (Py.orStr prev.type "text")) (Py.strip ua) = some val →
        Py.alookup (Py.orStr prev.key ("q" ++ Nat.repr sess.step))
          ((sess.spec.sessionPart.bind (fun sp => sp.validate)).getD []) = none →
        SessionM.recordAndAdvance rm sess ua =
          .ok (none, { sess with
            answers := Py.aset (Py.orStr prev.key ("q" ++ Nat.repr sess.step))
              val sess.answers })) := by
  refine ⟨by rfl, by rfl, by rfl, by rfl, ?_, ?_⟩
  · exact fun rm sess ua prev h0 hget hco =>
      SessionM.rra_coerce_fail rm sess ua prev h0 hget hco
  · exact fun rm sess ua prev val h0 hget hco hval =>
      SessionM.rra_coerce_success rm sess ua prev val h0 hget hco hval

/-- C2 witness: the general coercion-failure branch of `claim_C2`
instantiated on the concrete example session after one advance, with a
non-integer answer. -/
theorem claim_C2_witness :
    ∃ e, e ≠ "" ∧
      SessionM.recordAndAdvance SessionM.rmNever (SessionM.advance SessionM.sessAB) "zzz"
        = .ok (some e, SessionM.advance SessionM.sessAB) :=
  claim_C2.2.2.2.2.1 SessionM.rmNever (SessionM.advance SessionM.sessAB) "zzz"
    { key := some "a", ask := some "Value for a?", type := some "int" }
    (by decide) (by rfl) (by rfl)

/-- C10: the cursor invariant `0 ≤ step ≤ len(steps)`: `start` initialises
`step = 0`; `advance` increments the cursor exactly while `step < len(steps)`
and is a no-op at or beyond the end, preserving the upper bound;
`record_and_advance` never changes the cursor or the step list; hence
`finished` (`step ≥ len(steps)`) is stable under both operations. -/
theorem claim_C10 :
    (∀ spec sid pn, (SessionM.start spec sid pn).step = 0)
    ∧ (∀ sess : SessionM.Session, sess.step < sess.total →
        (SessionM.advance sess).step = sess.step + 1)
    ∧ (∀ sess : SessionM.Session, ¬ sess.step < sess.total →
        SessionM.advance sess = sess)
    ∧ (∀ sess : SessionM.Session, sess.step ≤ sess.total →
        (SessionM.advance sess).step ≤ (SessionM.advance sess).total)
    ∧ (∀ rm sess ua r s2, SessionM.recordAndAdvance rm sess ua = .ok (r, s2) →
        s2.step = sess.step ∧ s2.total = sess.total)
    ∧ (∀ sess : SessionM.Session, SessionM.finished sess = true →
        SessionM.finished (SessionM.advance sess) = true)
    ∧ (∀ rm sess ua r s2, SessionM.recordAndAdvance rm sess ua = .ok (r, s2) →
        SessionM.finished sess = true → SessionM.finished s2 = true) := by
  have hadv_total : ∀ sess : SessionM.Session,
      (SessionM.advance sess).total = sess.total := by
    intro sess
    unfold SessionM.advance
    split
    · exact SessionM.total_congr rfl
    · rfl
  refine ⟨?_, ?_, ?_, ?_, ?_, ?_, ?_⟩
  · intro spec sid pn; rfl
  · intro sess h; unfold SessionM.advance; rw [if_pos h]
  · intro sess h; unfold SessionM.advance; rw [if_neg h]
  · intro sess hle
    rw [hadv_total]
    unfold SessionM.advance
    split
    · next h => exact h
    · exact hle
  · intro rm sess ua r s2 h
    have hinv := SessionM.recordAndAdvance_ok_inv rm sess ua r s2 h
    exact ⟨hinv.1, SessionM.total_congr hinv.2⟩
  · intro sess hfin
    unfold SessionM.finished at hfin ⊢
    unfold SessionM.advance
    have hge : sess.total ≤ sess.step := by simpa using hfin
    rw [if_neg (by omega)]
    simpa using hge
  · intro rm sess ua r s2 h hfin
    have hinv := SessionM.recordAndAdvance_ok_inv rm sess ua r s2 h
    have htot := SessionM.total_congr hinv.2
    unfold SessionM.finished at hfin ⊢
    rw [hinv.1, htot]
    exact hfin

/-- C10 witness: the invariant facts of `claim_C10` instantiated on the
concrete example session. -/
theorem claim_C10_witness :
    (SessionM.advance SessionM.sessAB).step ≤ (SessionM.advance SessionM.sessAB).total
    ∧ (SessionM.sessAB.step = SessionM.sessAB.step
        ∧ SessionM.sessAB.total = SessionM.sessAB.total) :=
  ⟨claim_C10.2.2.2.1 SessionM.sessAB (by decide),
   claim_C10.2.2.2.2.1 SessionM.rmNever SessionM.sessAB "notanint" none SessionM.sessAB (by rfl)⟩

namespace Resolver

/-- A Python value as walked by `resolve_workspace_names`: strings, dicts and
lists are traversed; other leaves (numbers, booleans, `None`) pass through. -/
inductive PyVal where
  | str (s : String)
  | intV (n : Int)
  | boolV (b : Bool)
  | noneV
  | dict (fields : List (String × PyVal))
  | list (items : List PyVal)

/-- One entry of the Workspace `artifacts` map
(`name → {artifact_id, type, updated_at}`); a `none` field models an absent
key. -/
structure WsEntry where
  artifactId : Option String
  type : Option String
  updatedAt : Option String
deriving DecidableEq, Repr

/-- Python `s.lstrip("@")`: remove every leading `@`. -/
def lstripAt (s : String) : String := ⟨s.data.dropWhile (fun c => c = '@')⟩

/-- The inner `resolve_str` of `resolve_workspace_names`. -/
def resolveStr (wsMap : List (String × WsEntry)) (s : String) : String :=
  let key := lstripAt s
  match Py.alookup key wsMap with
  | none => s
  | some meta => Py.orStr meta.artifactId key

mutual

/-- The inner `walk` of `resolve_workspace_names`: rebuild dicts and lists,
resolve strings, keep other leaves. -/
def walk (wsMap : List (String × WsEntry)) : PyVal → PyVal
  | .str s => .str (resolveStr wsMap s)
  | .dict fs => .dict (walkFields wsMap fs)
  | .list xs => .list (walkItems wsMap xs)
  | .intV n => .intV n
  | .boolV b => .boolV b
  | .noneV => .noneV

/-- `walk` over the entries of a dict. -/
def walkFields (wsMap : List (String × WsEntry)) :
    List (String × PyVal) → List (String × PyVal)
  | [] => []
  | (k, v) :: rest => (k, walk wsMap v) :: walkFields wsMap rest

/-- `walk` over the items of a list. -/
def walkItems (wsMap : List (String × WsEntry)) : List PyVal → List PyVal
  | [] => []
  | v :: rest => walk wsMap v :: walkItems wsMap rest

end

mutual

/-- All string leaves contained in a value (the strings `walk` may touch). -/
def strLeaves : PyVal → List String
  | .str s => [s]
  | .dict fs => strLeavesFields fs
  | .list xs => strLeavesItems xs
  | .intV _ => []
  | .boolV _ => []
  | .noneV => []

/-- String leaves of a dict's entries. -/
def strLeavesFields : List (String × PyVal) → List String
  | [] => []
  | (_, v) :: rest => strLeaves v ++ strLeavesFields rest

/-- String leaves of a list's items. -/
def strLeavesItems : List PyVal → List String
  | [] => []
  | v :: rest => strLeaves v ++ strLeavesItems rest

end

/-- `resolve_workspace_names(input_obj, artifacts, package_name)`: `pkg` is
the result of `_pkg_name` (requested name or the active package, `None`/empty
falsy), and `wsMap` is the `artifacts` map of that package's loaded workspace
store. -/
def resolveWorkspaceNames (pkg : Option String) (wsMap : List (String × WsEntry))
    (input : PyVal) : PyVal :=
  match pkg with
  | none => input
  | some p => if p = "" then input else walk wsMap input

mutual

/-- `walk` is the identity on a value none of whose string leaves matches a
workspace name (after stripping leading `@`). -/
theorem walk_noop (wsMap : List (String × WsEntry)) (v : PyVal)
    (h : ∀ s ∈ strLeaves v, Py.alookup (lstripAt s) wsMap = none) :
    walk wsMap v = v :=
  match v with
  | .str s => by
    have hs := h s (by simp [strLeaves])
    simp [walk, resolveStr, hs]
  | .dict fs => by
    have := walkFields_noop wsMap fs (fun s hs => h s (by simpa [strLeaves] using hs))
    simp [walk, this]
  | .list xs => by
    have := walkItems_noop wsMap xs (fun s hs => h s (by simpa [strLeaves] using hs))
    simp [walk, this]
  | .intV n => rfl
  | .boolV b => rfl
  | .noneV => rfl

/-- `walkFields` is the identity under the same condition. -/
theorem walkFields_noop (wsMap : List (String × WsEntry)) (fs : List (String × PyVal))
    (h : ∀ s ∈ strLeavesFields fs, Py.alookup (lstripAt s) wsMap = none) :
    walkFields wsMap fs = fs :=
  match fs with
  | [] => rfl
  | (k, v) :: rest => by
    have h1 := walk_noop wsMap v (fun s hs => h s (by simp [strLeavesFields, hs]))
    have h2 := walkFields_noop wsMap rest (fun s hs => h s (by simp [strLeavesFields, hs]))
    simp [walkFields, h1, h2]

/-- `walkItems` is the identity under the same condition. -/
theorem walkItems_noop (wsMap : List (String × WsEntry)) (xs : List PyVal)
    (h : ∀ s ∈ strLeavesItems xs, Py.alookup (lstripAt s) wsMap = none) :
    walkItems wsMap xs = xs :=
  match xs with
  | [] => rfl
  | v :: rest => by
    have h1 := walk_noop wsMap v (fun s hs => h s (by simp [strLeavesItems, hs]))
    have h2 := walkItems_noop wsMap rest (fun s hs => h s (by simp [strLeavesItems, hs]))
    simp [walkItems, h1, h2]

end

/-- A concrete one-entry workspace artifacts map for witnesses. -/
def wsMapBOM : List (String × WsEntry) :=
  [("BOM", { artifactId := some "id-123", type := some "table", updatedAt := none })]

end Resolver

/-- C9: name resolution walks dicts and lists recursively; a string whose
`@`-stripped form is a key of the workspace `artifacts` map is replaced by
that entry's `artifact_id` (whenever the entry carries a non-empty id, which
is how entries are written); any other string and every non-string leaf pass
through unchanged — hence on an input none of whose strings matches a key
(already-concrete ids, unknown strings), resolution is a no-op. -/
theorem claim_C9 :
    (∀ wsMap s e aid, Py.alookup (Resolver.lstripAt s) wsMap = some e →
        e.artifactId = some aid → aid ≠ "" →
        Resolver.resolveStr wsMap s = aid)
    ∧ (∀ wsMap s, Py.alookup (Resolver.lstripAt s) wsMap = none →
        Resolver.resolveStr wsMap s = s)
    ∧ (∀ pkg wsMap v, (∀ s ∈ Resolver.strLeaves v,
        Py.alookup (Resolver.lstripAt s) wsMap = none) →
        Resolver.resolveWorkspaceNames pkg wsMap v = v) := by
  refine ⟨?_, ?_, ?_⟩
  · intro wsMap s e aid hlook hid hne
    unfold Resolver.resolveStr
    dsimp only
    rw [hlook]
    simp only [Py.orStr, hid]
    rw [if_neg hne]
  · intro wsMap s hlook
    unfold Resolver.resolveStr
    dsimp only
    rw [hlook]
  · intro pkg wsMap v h
    unfold Resolver.resolveWorkspaceNames
    match pkg with
    | none => rfl
    | some p =>
      by_cases hp : p = ""
      · simp [hp]
      · simp only [if_neg hp]
        exact Resolver.walk_noop wsMap v h

/-- C9 witness: a one-entry workspace map: `"@BOM"` resolves to the entry's
artifact id, and an input holding only a concrete id and non-string leaves is
returned unchanged. -/
theorem claim_C9_witness :
    Resolver.resolveStr Resolver.wsMapBOM "@BOM" = "id-123"
    ∧ Resolver.resolveWorkspaceNames (some "pkg") Resolver.wsMapBOM
        (Resolver.PyVal.dict [("source", .str "id-999"), ("n", .intV 3)])
      = Resolver.PyVal.dict [("source", .str "id-999"), ("n", .intV 3)] :=
  ⟨claim_C9.1 Resolver.wsMapBOM "@BOM" _ "id-123" (by rfl) (by rfl) (by decide),
   claim_C9.2.2 (some "pkg") Resolver.wsMapBOM _ (fun s hs => by
      simp [Resolver.strLeaves, Resolver.strLeavesFields, Resolver.strLeavesItems] at hs
      subst hs
      rfl)⟩

namespace ArtifactPkg

def digitsRev (n : Nat) : List Char :=
  if _h : n < 10 then [Nat.digitChar n]
  else digitsRev (n / 10) ++ [Nat.digitChar (n % 10)]
decreasing_by
  exact Nat.div_lt_self (by omega) (by omega)

theorem digitsRev_lt {n : Nat} (h : n < 10) : digitsRev n = [Nat.digitChar n] := by
  unfold digitsRev
  rw [dif_pos h]

theorem digitsRev_ge {n : Nat} (h : ¬ n < 10) :
    digitsRev n = digitsRev (n / 10) ++ [Nat.digitChar (n % 10)] := by
  conv_lhs => rw [digitsRev]
  rw [dif_neg h]

theorem digitsRev_ne_nil (n : Nat) : digitsRev n ≠ [] := by
  unfold digitsRev
  split
  · simp
  · simp

theorem toDigitsCore_eq (f : Nat) : ∀ n l, n < f →
    Nat.toDigitsCore 10 f n l = digitsRev n ++ l := by
  induction f with
  | zero => intro n l h; omega
  | succ f ih =>
    intro n l h
    unfold Nat.toDigitsCore
    dsimp only
    by_cases h0 : n / 10 = 0
    · rw [if_pos h0]
      have hn : n < 10 := by omega
      rw [digitsRev_lt hn]
      have hmod : n % 10 = n := Nat.mod_eq_of_lt hn
      rw [hmod]
      rfl
    · rw [if_neg h0]
      have hn : ¬ n < 10 := by
        intro hc
        exact h0 (Nat.div_eq_of_lt hc)
      have hlt : n / 10 < f := by
        have h1 : n / 10 < n := Nat.div_lt_self (by omega) (by omega)
        omega
      rw [ih (n / 10) (Nat.digitChar (n % 10) :: l) hlt]
      rw [digitsRev_ge hn]
      simp

theorem repr_eq_digitsRev (n : Nat) : (Nat.repr n).data = digitsRev n := by
  show (Nat.toDigits 10 n).asString.data = digitsRev n
  rw [Nat.toDigits, toDigitsCore_eq (n+1) n [] (by omega)]
  simp [List.asString]

theorem digitChar_inj10 : ∀ a < 10, ∀ b < 10, Nat.digitChar a = Nat.digitChar b → a = b := by
  decide

theorem digitsRev_inj (m : Nat) : ∀ n, digitsRev m = digitsRev n → m = n := by
  induction m using Nat.strong_induction_on with
  | _ m ih =>
    intro n h
    by_cases hm : m < 10
    · by_cases hn : n < 10
      · rw [digitsRev_lt hm, digitsRev_lt hn] at h
        exact digitChar_inj10 m hm n hn (by simpa using h)
      · rw [digitsRev_lt hm, digitsRev_ge hn] at h
        have hlen := congrArg List.length h
        simp at hlen
        exact absurd hlen (digitsRev_ne_nil _)
    · by_cases hn : n < 10
      · rw [digitsRev_ge hm, digitsRev_lt hn] at h
        have hlen := congrArg List.length h
        simp at hlen
        exact absurd hlen (digitsRev_ne_nil _)
      · rw [digitsRev_ge hm, digitsRev_ge hn] at h
        have hrev := congrArg List.reverse h
        simp at hrev
        obtain ⟨hd, htl⟩ := hrev
        have h1 : m % 10 = n % 10 :=
          digitChar_inj10 _ (Nat.mod_lt _ (by omega)) _ (Nat.mod_lt _ (by omega)) hd
        have hlt : m / 10 < m := Nat.div_lt_self (by omega) (by omega)
        have h2 : m / 10 = n / 10 := by
          apply ih (m / 10) hlt
          have hr2 := congrArg List.reverse htl
          simpa using hr2
        omega

theorem repr_inj {m n : Nat} (h : Nat.repr m = Nat.repr n) : m = n := by
  apply digitsRev_inj
  rw [← repr_eq_digitsRev, ← repr_eq_digitsRev, h]

end ArtifactPkg

namespace AgentR

/-- A Tool `Result` dict, modelled with its well-known optional fields (a
`none` field is an absent key).  `errorInfo`, `logs` and `tracebackInfo` are
the `error`/`logs`/`traceback` keys of the structured error dict built by
`_execute_tool_safely`. -/
structure RunResult where
  message : Option String
  ui : Option String
  html : Option String
  artifactIds : List (String × String)
  switchContract : Option String
  sessionType : Option String
  injectOnce : Option String
  artifactMessage : Option String
  errorInfo : Option String
  logs : Option String
  tracebackInfo : Option String
  displayed : Option Bool
deriving Repr

/-- The result dict with no keys set. -/
def emptyResult : RunResult :=
  { message := none, ui := none, html := none, artifactIds := [],
    switchContract := none, sessionType := none, injectOnce := none,
    artifactMessage := none, errorInfo := none, logs := none,
    tracebackInfo := none, displayed := none }

end AgentR

namespace ArtifactPkg

/-- A metadata value: the modelled code stores strings (`name`, timestamps)
and booleans (`remembered`, `from_tool`) in artifact metadata. -/
inductive MetaVal where
  | s (v : String)
  | b (v : Bool)
deriving DecidableEq, Repr

/-- Workspace-store content: the three canonical maps plus the session and
contract-switch bookkeeping (absent keys are `none`/empty). -/
structure WsContent where
  artifactsMap : List (String × Resolver.WsEntry)
  memory : List (String × Resolver.PyVal)
  injectionsOnce : List (String × String)
  sessions : List (String × Resolver.PyVal)
  pendingSessionSid : Option String
  pendingContractSwitch : Option (String × Option String)

/-- Content of an artifact: an ordinary Python value, the structured content
of the per-package workspace-store artifact, or a captured run-result
snapshot. -/
inductive AContent where
  | pyv (v : Resolver.PyVal)
  | wsc (w : WsContent)
  | res (r : AgentR.RunResult)

/-- The `Artifact` class: `id`, `type`, `content`, `metadata`, plus the two
ad-hoc attributes `_announce` and `_created_at` set by `add_artifact`
(`createdAtTag` is `""` while unset, matching `getattr(a, "_created_at", "")`). -/
structure Artifact where
  id : String
  type : String
  content : AContent
  metadata : List (String × MetaVal)
  announceMark : Option String
  createdAtTag : String

/-- The `name` property: `metadata.get("name")`.  Name values are always
strings (the setter coerces through `str`). -/
def Artifact.name (a : Artifact) : Option String :=
  match Py.alookup "name" a.metadata with
  | some (.s v) => some v
  | _ => none

/-- The `name` setter: `metadata["name"] = str(value)`. -/
def Artifact.setName (a : Artifact) (v : String) : Artifact :=
  { a with metadata := Py.aset "name" (.s v) a.metadata }

/-- An `ArtifactPackage`: name, artifacts keyed by id (insertion order), and
pipelines (opaque payloads). -/
structure Package where
  name : String
  artifacts : List (String × Artifact)
  pipelines : List Resolver.PyVal

/-- The names present in a package, as scanned by `_unique_name`
(`{getattr(a, "name", None) for a in self.artifacts.values()}`). -/
def existingNames (arts : List (String × Artifact)) : List (Option String) :=
  arts.map (fun ia => ia.2.name)

/-- The candidate `f"{desired} ({n})"`. -/
def cand (desired : String) (n : Nat) : String :=
  desired ++ " (" ++ Nat.repr n ++ ")"

/-- The `while True` loop of `_unique_name`, with explicit fuel.  Fuel
`|existing| + 1` always suffices: the candidates are pairwise distinct
(`cand_inj`), so among `|existing| + 1` of them one is free
(`exists_free_cand`); the fuel-exhausted fallback value is never reached. -/
def uniqueNameFrom (desired : String) (existing : List (Option String)) :
    Nat → Nat → String
  | n, 0 => cand desired n
  | n, fuel+1 =>
    if some (cand desired n) ∈ existing then uniqueNameFrom desired existing (n+1) fuel
    else cand desired n

/-- `ArtifactPackage._unique_name`. -/
def uniqueName (p : Package) (desired : String) : String :=
  if desired = "" then desired
  else
    let existing := existingNames p.artifacts
    if some desired ∉ existing then desired
    else uniqueNameFrom desired existing 2 (existing.length + 1)

/-- `id[:8]`. -/
def shortId (s : String) : String := ⟨s.data.take 8⟩

/-- The `_announce` string set by `add_artifact`. -/
def announceFor (pkgName : String) (a : Artifact) : String :=
  match a.name with
  | some nm =>
    if nm ≠ "" then
      "✅ Artifact created: name=\x27" ++ nm ++ "\x27 id=\x27" ++ shortId a.id ++
        "\x27 type=\x27" ++ a.type ++ "\x27 in package \x27" ++ pkgName ++ "\x27"
    else
      "✅ Artifact created: id=\x27" ++ shortId a.id ++ "\x27 type=\x27" ++ a.type ++
        "\x27 in package \x27" ++ pkgName ++ "\x27"
  | none =>
    "✅ Artifact created: id=\x27" ++ shortId a.id ++ "\x27 type=\x27" ++ a.type ++
      "\x27 in package \x27" ++ pkgName ++ "\x27"

/-- `ArtifactPackage.add_artifact` (with `ensure_unique_name` explicit):
stamp timestamps, disambiguate a truthy name, register under the artifact id,
record the announce string and `_created_at`.  The `print` of the announce is
a log, not state. -/
def addArtifactP (now : String) (ensureUnique : Bool) (p : Package) (a : Artifact) :
    Package × Artifact :=
  let md := Py.aset "updated_at" (.s now) (Py.asetdefault "created_at" (.s now) a.metadata)
  let a1 : Artifact := { a with metadata := md }
  let a2 :=
    match a1.name with
    | some nm => if ensureUnique ∧ nm ≠ "" then a1.setName (uniqueName p nm) else a1
    | none => a1
  let a3 : Artifact := { a2 with announceMark := some (announceFor p.name a2), createdAtTag := now }
  ({ p with artifacts := Py.aset a3.id a3 p.artifacts }, a3)

end ArtifactPkg

namespace ArtifactPkg

theorem cand_inj (d : String) {m n : Nat} (h : cand d m = cand d n) : m = n := by
  have hd := congrArg String.data h
  simp only [cand, String.data_append, List.append_assoc] at hd
  have h1 := List.append_cancel_left hd
  have h2 := List.append_cancel_left h1
  have h3 := List.append_cancel_right h2
  apply digitsRev_inj
  rw [← repr_eq_digitsRev, ← repr_eq_digitsRev, h3]

theorem repr_data_ne_nil (n : Nat) : (Nat.repr n).data ≠ [] := by
  rw [repr_eq_digitsRev]
  exact digitsRev_ne_nil n

theorem cand_ne_self (d : String) (n : Nat) : cand d n ≠ d := by
  intro h
  have hd := congrArg (fun s => s.data.length) h
  simp only [cand, String.data_append, List.length_append] at hd
  have := repr_data_ne_nil n
  have hlen : (Nat.repr n).data.length ≠ 0 := fun hz => this (List.length_eq_zero.mp hz)
  simp at hd
  omega

theorem exists_free_cand (d : String) (existing : List (Option String)) (n : Nat) :
    ∃ k, n ≤ k ∧ k < n + (existing.length + 1) ∧ some (cand d k) ∉ existing := by
  by_contra hc
  push_neg at hc
  have hsub : (Finset.range (existing.length + 1)).image (fun i => some (cand d (n + i)))
      ⊆ existing.toFinset := by
    intro x hx
    simp only [Finset.mem_image, Finset.mem_range] at hx
    obtain ⟨i, hi, rfl⟩ := hx
    exact List.mem_toFinset.mpr (hc (n + i) (by omega) (by omega))
  have hcard : ((Finset.range (existing.length + 1)).image
      (fun i => some (cand d (n + i)))).card = existing.length + 1 := by
    rw [Finset.card_image_of_injOn]
    · exact Finset.card_range _
    · intro i _ j _ hij
      have h1 : cand d (n + i) = cand d (n + j) := Option.some.inj hij
      have := cand_inj d h1
      omega
  have h1 := Finset.card_le_card hsub
  have h2 := existing.toFinset_card_le
  omega

theorem uniqueNameFrom_spec (d : String) (existing : List (Option String)) :
    ∀ fuel n, (∃ k, n ≤ k ∧ k < n + fuel ∧ some (cand d k) ∉ existing) →
    ∃ k, uniqueNameFrom d existing n fuel = cand d k ∧ n ≤ k ∧
      some (cand d k) ∉ existing ∧ ∀ j, n ≤ j → j < k → some (cand d j) ∈ existing := by
  intro fuel
  induction fuel with
  | zero =>
    rintro n ⟨k, h1, h2, -⟩
    omega
  | succ fuel ih =>
    rintro n ⟨k, hk1, hk2, hk3⟩
    unfold uniqueNameFrom
    by_cases hmem : some (cand d n) ∈ existing
    · rw [if_pos hmem]
      have hkn : k ≠ n := by
        intro he
        exact hk3 (he ▸ hmem)
      obtain ⟨k2, he, h1, h2, h3⟩ := ih (n+1) ⟨k, by omega, by omega, hk3⟩
      refine ⟨k2, he, by omega, h2, fun j hj1 hj2 => ?_⟩
      rcases Nat.eq_or_lt_of_le hj1 with he2 | hlt
      · exact he2 ▸ hmem
      · exact h3 j (by omega) hj2
    · rw [if_neg hmem]
      exact ⟨n, rfl, le_refl n, hmem, fun j h1 h2 => by omega⟩

theorem uniqueName_spec (p : Package) (desired : String) (hne : desired ≠ "") :
    (some desired ∉ existingNames p.artifacts ∧ uniqueName p desired = desired)
    ∨ (some desired ∈ existingNames p.artifacts ∧
       ∃ k, 2 ≤ k ∧ uniqueName p desired = cand desired k ∧
         some (cand desired k) ∉ existingNames p.artifacts ∧
         ∀ j, 2 ≤ j → j < k → some (cand desired j) ∈ existingNames p.artifacts) := by
  unfold uniqueName
  rw [if_neg hne]
  dsimp only
  by_cases hmem : some desired ∈ existingNames p.artifacts
  · right
    rw [if_neg (by simpa using hmem)]
    refine ⟨hmem, ?_⟩
    obtain ⟨k, he, h1, h2, h3⟩ :=
      uniqueNameFrom_spec desired (existingNames p.artifacts)
        (existingNames p.artifacts).length.succ 2
        (exists_free_cand desired (existingNames p.artifacts) 2)
    exact ⟨k, h1, he, h2, h3⟩
  · left
    rw [if_pos hmem]
    exact ⟨hmem, rfl⟩

theorem uniqueName_fresh (p : Package) (desired : String) (hne : desired ≠ "") :
    some (uniqueName p desired) ∉ existingNames p.artifacts := by
  rcases uniqueName_spec p desired hne with ⟨hnm, he⟩ | ⟨-, k, -, he, hfree, -⟩
  · rw [he]; exact hnm
  · rw [he]; exact hfree

end ArtifactPkg

namespace ArtifactPkg

theorem alookup_aset_self (k : String) (v : MetaVal) (l : List (String × MetaVal)) :
    Py.alookup k (Py.aset k v l) = some v := by
  induction l with
  | nil => simp [Py.aset, Py.alookup]
  | cons e rest ih =>
    obtain ⟨k0, v0⟩ := e
    by_cases he : k0 = k
    · subst he
      simp [Py.aset, Py.alookup]
    · simp [Py.aset, Py.alookup, he, ih]

theorem alookup_aset_ne (k k2 : String) (v : MetaVal) (l : List (String × MetaVal))
    (h : k2 ≠ k) : Py.alookup k2 (Py.aset k v l) = Py.alookup k2 l := by
  have hk : k ≠ k2 := Ne.symm h
  induction l with
  | nil => simp [Py.aset, Py.alookup, hk]
  | cons e rest ih =>
    obtain ⟨k0, v0⟩ := e
    by_cases he : k0 = k
    · subst he
      simp [Py.aset, Py.alookup, hk]
    · simp only [Py.aset, if_neg he]
      by_cases he2 : k0 = k2
      · simp [Py.alookup, he2]
      · simp [Py.alookup, he2, ih]

theorem alookup_append (k : String) (l1 l2 : List (String × MetaVal)) :
    Py.alookup k (l1 ++ l2) =
      match Py.alookup k l1 with
      | some x => some x
      | none => Py.alookup k l2 := by
  induction l1 with
  | nil => simp [Py.alookup]
  | cons e rest ih =>
    obtain ⟨k0, v0⟩ := e
    by_cases he : k0 = k
    · simp [Py.alookup, he]
    · simp [Py.alookup, he, ih]

theorem alookup_asetdefault_ne (k k2 : String) (v : MetaVal) (l : List (String × MetaVal))
    (h : k2 ≠ k) : Py.alookup k2 (Py.asetdefault k v l) = Py.alookup k2 l := by
  unfold Py.asetdefault
  split
  · rfl
  · rw [alookup_append]
    cases hl : Py.alookup k2 l with
    | some x => rfl
    | none => simp [Py.alookup, Ne.symm h]

/-- Timestamping in `add_artifact` does not change the artifact name. -/
theorem name_after_stamp (a : Artifact) (now : String) :
    Artifact.name
      { a with metadata := Py.aset "updated_at" (.s now) (Py.asetdefault "created_at" (.s now) a.metadata) }
      = a.name := by
  unfold Artifact.name
  rw [alookup_aset_ne _ _ _ _ (by decide), alookup_asetdefault_ne _ _ _ _ (by decide)]

theorem setName_name (a : Artifact) (v : String) : (a.setName v).name = some v := by
  unfold Artifact.setName Artifact.name
  rw [alookup_aset_self]

theorem cand_ne_empty (d : String) (n : Nat) : cand d n ≠ "" := by
  intro h
  have hd := congrArg (fun s => s.data.length) h
  simp only [cand, String.data_append, List.length_append] at hd
  simp at hd

theorem uniqueName_ne_empty (p : Package) (desired : String) (hne : desired ≠ "") :
    uniqueName p desired ≠ "" := by
  rcases uniqueName_spec p desired hne with ⟨-, he⟩ | ⟨-, k, -, he, -, -⟩
  · rw [he]; exact hne
  · rw [he]; exact cand_ne_empty desired k

end ArtifactPkg

namespace ArtifactPkg

/-- Contribution of one artifact to the list of non-empty names. -/
def contrib (a : Artifact) : List String :=
  match a.name with
  | some s => if s = "" then [] else [s]
  | none => []

/-- The non-empty artifact names of a package, in artifact order. -/
def namesList : List (String × Artifact) → List String
  | [] => []
  | ia :: rest => contrib ia.2 ++ namesList rest

/-- The uniqueness invariant of the specification: among all artifacts of a
package with a non-empty `name`, names are pairwise distinct. -/
def NamesUnique (p : Package) : Prop := (namesList p.artifacts).Nodup

theorem namesList_append (l1 l2 : List (String × Artifact)) :
    namesList (l1 ++ l2) = namesList l1 ++ namesList l2 := by
  induction l1 with
  | nil => rfl
  | cons e rest ih => simp [namesList, ih]

theorem mem_contrib {s : String} {a : Artifact} (h : s ∈ contrib a) : a.name = some s := by
  unfold contrib at h
  split at h
  · split at h
    · simp at h
    · next hname _ =>
      simp at h
      subst h
      assumption
  · simp at h

theorem mem_namesList {s : String} {l : List (String × Artifact)}
    (h : s ∈ namesList l) : some s ∈ existingNames l := by
  induction l with
  | nil => simp [namesList] at h
  | cons e rest ih =>
    simp only [namesList, List.mem_append] at h
    rcases h with h | h
    · exact List.mem_map.mpr ⟨e, List.mem_cons_self e rest, mem_contrib h⟩
    · have := ih h
      unfold existingNames at this ⊢
      simp only [List.map_cons]
      exact List.mem_cons_of_mem _ this

theorem aset_cases (k : String) (v : Artifact) (l : List (String × Artifact)) :
    (∃ l1 old l2, l = l1 ++ (k, old) :: l2 ∧ Py.aset k v l = l1 ++ (k, v) :: l2)
    ∨ Py.aset k v l = l ++ [(k, v)] := by
  induction l with
  | nil => right; rfl
  | cons e rest ih =>
    obtain ⟨k0, v0⟩ := e
    by_cases he : k0 = k
    · subst he
      left
      exact ⟨[], v0, rest, rfl, by simp [Py.aset]⟩
    · rcases ih with ⟨l1, old, l2, hl, hset⟩ | hset
      · left
        exact ⟨(k0, v0) :: l1, old, l2, by simp [hl], by simp [Py.aset, he, hset]⟩
      · right
        simp [Py.aset, he, hset]

end ArtifactPkg

namespace ArtifactPkg

theorem existingNames_append (l1 l2 : List (String × Artifact)) :
    existingNames (l1 ++ l2) = existingNames l1 ++ existingNames l2 := by
  simp [existingNames]

/-- Core step: registering an artifact whose (single) non-empty name is fresh
preserves the package name-uniqueness invariant, whether the `dict`
assignment replaces an entry or appends one. -/
theorem names_unique_aset (p : Package) (x : Artifact)
    (hx : ∀ s, contrib x = [s] → some s ∉ existingNames p.artifacts)
    (h : NamesUnique p) : (namesList (Py.aset x.id x p.artifacts)).Nodup := by
  have hcases : contrib x = [] ∨ ∃ s, contrib x = [s] := by
    unfold contrib
    split
    · split
      · exact Or.inl rfl
      · exact Or.inr ⟨_, rfl⟩
    · exact Or.inl rfl
  rcases aset_cases x.id x p.artifacts with ⟨l1, old, l2, hl, hset⟩ | hset
  · rw [hset, namesList_append]
    unfold NamesUnique at h
    rw [hl, namesList_append] at h
    simp only [namesList] at h ⊢
    have hbase : (namesList l1 ++ namesList l2).Nodup := by
      refine List.Nodup.sublist ?_ h
      exact List.Sublist.append_left (List.sublist_append_right _ _) _
    rcases hcases with hc | ⟨s, hc⟩
    · simpa [hc] using hbase
    · rw [hc]
      have hs := hx s hc
      have hnotin : s ∉ namesList l1 ++ namesList l2 := by
        intro hmem
        apply hs
        rw [hl, existingNames_append]
        rcases List.mem_append.mp hmem with hm | hm
        · exact List.mem_append.mpr (Or.inl (mem_namesList hm))
        · refine List.mem_append.mpr (Or.inr ?_)
          unfold existingNames
          simp only [List.map_cons]
          exact List.mem_cons_of_mem _ (mem_namesList hm)
      have : (s :: (namesList l1 ++ namesList l2)).Nodup :=
        List.nodup_cons.mpr ⟨hnotin, hbase⟩
      exact List.nodup_middle.mpr this
  · rw [hset, namesList_append]
    unfold NamesUnique at h
    rcases hcases with hc | ⟨s, hc⟩
    · simp [namesList, hc, h]
    · simp only [namesList, hc, List.append_nil]
      refine List.Nodup.append h (by simp) ?_
      intro s2 hs2 hmem
      simp at hmem
      subst hmem
      exact hx s2 hc (mem_namesList hs2)

end ArtifactPkg

namespace ArtifactPkg

/-- The added artifact's registration: `add_artifact` returns the package
with the (possibly renamed) artifact stored under its id. -/
theorem addArtifactP_decomp (now : String) (u : Bool) (p : Package) (a : Artifact) :
    (addArtifactP now u p a).1.artifacts
      = Py.aset (addArtifactP now u p a).2.id (addArtifactP now u p a).2 p.artifacts := by
  rfl

/-- If the artifact returned by `add_artifact` (with name enforcement on)
carries a non-empty name, that name is fresh for the original package. -/
theorem addArtifactP_contrib_fresh (now : String) (p : Package) (a : Artifact) :
    ∀ s, contrib (addArtifactP now true p a).2 = [s] →
      some s ∉ existingNames p.artifacts := by
  intro s hs
  unfold addArtifactP at hs
  dsimp only at hs
  have hname : ∀ b : Artifact, contrib { b with announceMark := some (announceFor p.name b), createdAtTag := now } = contrib b := fun b => rfl
  rw [hname] at hs
  rcases hn : Artifact.name { a with metadata := Py.aset "updated_at" (.s now) (Py.asetdefault "created_at" (.s now) a.metadata) } with - | nm
  · rw [hn] at hs
    dsimp only at hs
    unfold contrib at hs
    rw [hn] at hs
    simp at hs
  · rw [hn] at hs
    dsimp only at hs
    by_cases hnm : nm = ""
    · rw [if_neg (by simp [hnm])] at hs
      unfold contrib at hs
      rw [hn, hnm] at hs
      simp at hs
    · rw [if_pos (by simp [hnm])] at hs
      unfold contrib at hs
      rw [setName_name] at hs
      dsimp only at hs
      rw [if_neg (uniqueName_ne_empty p nm hnm)] at hs
      have hsu : s = uniqueName p nm := by
        simpa using hs.symm
      subst hsu
      exact uniqueName_fresh p nm hnm

/-- `add_artifact` preserves per-package uniqueness of non-empty names. -/
theorem addArtifactP_preserves_unique (now : String) (p : Package) (a : Artifact)
    (h : NamesUnique p) : NamesUnique (addArtifactP now true p a).1 := by
  unfold NamesUnique
  rw [addArtifactP_decomp]
  exact names_unique_aset p (addArtifactP now true p a).2
    (addArtifactP_contrib_fresh now p a) h

end ArtifactPkg

namespace ArtifactPkg

/-- An incoming artifact whose metadata name is `"N"`. -/
def mkArtN (i : String) : Artifact :=
  { id := i, type := "t", content := .pyv .noneV, metadata := [("name", .s "N")],
    announceMark := none, createdAtTag := "" }

/-- A package with no artifacts. -/
def pkgEmpty : Package := { name := "pkg", artifacts := [], pipelines := [] }

/-- A package already holding an artifact named `"N"`. -/
def pkgWithN : Package :=
  { name := "pkg", artifacts := [("id-0", mkArtN "id-0")], pipelines := [] }

/-- First of three consecutive adds of `"N"`-named artifacts to the empty
package. -/
def addN1 : Package × Artifact := addArtifactP "2026-01-01" true pkgEmpty (mkArtN "id-1")

/-- Second add. -/
def addN2 : Package × Artifact := addArtifactP "2026-01-01" true addN1.1 (mkArtN "id-2")

/-- Third add. -/
def addN3 : Package × Artifact := addArtifactP "2026-01-01" true addN2.1 (mkArtN "id-3")

end ArtifactPkg

/-- C4 counterexample: the claim quantifies over *every* package `P`; in a
package that already holds an artifact named `"N"`, adding an artifact whose
metadata name is `"N"` stores it as `"N (2)"`, not `"N"` — so two adds yield
`"N (2)"`, `"N (3)"` there, not `"N"`, `"N (2)"` as claimed. -/
theorem claim_C4_counterexample :
    (ArtifactPkg.addArtifactP "2026-01-01" true ArtifactPkg.pkgWithN
        (ArtifactPkg.mkArtN "id-1")).2.name = some "N (2)"
    ∧ (ArtifactPkg.addArtifactP "2026-01-01" true
        (ArtifactPkg.addArtifactP "2026-01-01" true ArtifactPkg.pkgWithN
          (ArtifactPkg.mkArtN "id-1")).1
        (ArtifactPkg.mkArtN "id-2")).2.name = some "N (3)"
    ∧ some "N (2)" ≠ some "N" := by
  refine ⟨by rfl, by rfl, by decide⟩

/-- C4 (amended): in a package in which `N` (here concretely, and the window
`"N (2)"`, `"N (3)"`) is not yet in use, adding artifacts named `N` under
fresh ids stores them as `N`, `N (2)`, `N (3)`; in general a collision is
resolved by appending `" (n)"` for the smallest `n ≥ 2` whose candidate is
not already an artifact name, and every `add_artifact` preserves the
invariant that non-empty artifact names within a package are unique. -/
theorem claim_C4 :
    (ArtifactPkg.addN1.2.name = some "N"
      ∧ ArtifactPkg.addN2.2.name = some "N (2)"
      ∧ ArtifactPkg.addN3.2.name = some "N (3)")
    ∧ (∀ p desired, desired ≠ "" →
        some desired ∈ ArtifactPkg.existingNames p.artifacts →
        ∃ k, 2 ≤ k
          ∧ ArtifactPkg.uniqueName p desired = desired ++ " (" ++ Nat.repr k ++ ")"
          ∧ some (desired ++ " (" ++ Nat.repr k ++ ")") ∉
              ArtifactPkg.existingNames p.artifacts
          ∧ ∀ j, 2 ≤ j → j < k →
              some (desired ++ " (" ++ Nat.repr j ++ ")") ∈
                ArtifactPkg.existingNames p.artifacts)
    ∧ (∀ now p a, ArtifactPkg.NamesUnique p →
        ArtifactPkg.NamesUnique (ArtifactPkg.addArtifactP now true p a).1) := by
  refine ⟨⟨by rfl, by rfl, by rfl⟩, ?_, ?_⟩
  · intro p desired hne hmem
    rcases ArtifactPkg.uniqueName_spec p desired hne with ⟨hno, -⟩ | ⟨-, k, h1, h2, h3, h4⟩
    · exact absurd hmem hno
    · exact ⟨k, h1, h2, h3, h4⟩
  · intro now p a h
    exact ArtifactPkg.addArtifactP_preserves_unique now p a h

/-- C4 witness: the collision-resolution branch of `claim_C4` instantiated on
the concrete package already holding `"N"`, and the invariant applied to a
concrete add. -/
theorem claim_C4_witness :
    (∃ k, 2 ≤ k
      ∧ ArtifactPkg.uniqueName ArtifactPkg.pkgWithN "N" = "N" ++ " (" ++ Nat.repr k ++ ")"
      ∧ some ("N" ++ " (" ++ Nat.repr k ++ ")") ∉
          ArtifactPkg.existingNames ArtifactPkg.pkgWithN.artifacts
      ∧ ∀ j, 2 ≤ j → j < k →
          some ("N" ++ " (" ++ Nat.repr j ++ ")") ∈
            ArtifactPkg.existingNames ArtifactPkg.pkgWithN.artifacts)
    ∧ ArtifactPkg.NamesUnique ArtifactPkg.addN1.1 :=
  ⟨claim_C4.2.1 ArtifactPkg.pkgWithN "N" (by decide) (by decide),
   claim_C4.2.2 "2026-01-01" ArtifactPkg.pkgEmpty (ArtifactPkg.mkArtN "id-1")
     (by constructor)⟩

namespace ToolReg

/-- One input/output spec dict of an `IO_SCHEMA` (only the fields the core
reads). -/
structure IOEntry where
  type : Option String
  required : Bool
  remember : Bool
deriving DecidableEq, Repr

/-- An `io_schema`: named input and output spec dicts in insertion order. -/
structure IOSchema where
  inputs : List (String × IOEntry)
  outputs : List (String × IOEntry)
deriving DecidableEq, Repr

/-- The tool registry: `(tool name, io_schema)` in registration order.  The
`class`, `description`, `category` and `artifacts` fields of the stored
metadata dicts are never consulted by the planner. -/
abbrev Registry := List (String × IOSchema)

/-- `spec.get("type")` guarded by Python truthiness (`if art:`): an absent or
empty type is skipped. -/
def truthyType : Option String → Option String
  | some t => if t = "" then none else some t
  | none => none

/-- The declared (truthy) input types of a schema, in insertion order. -/
def inputTypes (sch : IOSchema) : List String :=
  sch.inputs.filterMap (fun e => truthyType e.2.type)

/-- The declared (truthy) output types of a schema, in insertion order. -/
def outputTypes (sch : IOSchema) : List String :=
  sch.outputs.filterMap (fun e => truthyType e.2.type)

/-- `consumes[t]` as built by `_build_maps`: tool names in registration
order, appended once per input declaring type `t`. -/
def consumesOf (reg : Registry) (t : String) : List String :=
  (reg.map (fun p => ((inputTypes p.2).filter (fun x => x = t)).map (fun _ => p.1))).flatten

/-- `tool_outputs[name]` as built in `plan_path` (dict comprehension over
`tools.items()`, later entries overwriting: last match wins; registry keys
are unique in practice). -/
def outputsOf (reg : Registry) (name : String) : List String :=
  match Py.alookup name reg.reverse with
  | some sch => outputTypes sch
  | none => []

/-- The flattened `(tool, output-type)` scan order of the two nested loops of
one BFS expansion step. -/
def pairsFor (reg : Registry) (cur : String) : List (String × String) :=
  (consumesOf reg cur).flatMap (fun tn => (outputsOf reg tn).map (fun ot => (tn, ot)))

/-- One expansion step of `plan_path`'s BFS over the scanned pairs:
return on the first pair producing the goal; otherwise mark each unvisited
produced type visited and enqueue it with the extended plan. -/
def expandStep (goal : String) (plan : List String) :
    List (String × String) → List String → List (String × List String) →
    Option (List String) × List String × List (String × List String)
  | [], visited, acc => (none, visited, acc)
  | (tn, ot) :: rest, visited, acc =>
    if ot = goal then (some (plan ++ [tn]), visited, acc)
    else if ot ∈ visited then expandStep goal plan rest visited acc
    else expandStep goal plan rest (visited ++ [ot]) (acc ++ [(ot, plan ++ [tn])])

/-- Every output type any registered tool declares. -/
def allOutTypes (reg : Registry) : List String := reg.flatMap (fun p => outputTypes p.2)

/-- Termination measure part: produced types not yet visited. -/
def unvisitedCount (reg : Registry) (visited : List String) : Nat :=
  ((allOutTypes reg).toFinset.filter (fun t => t ∉ visited)).card

theorem alookup_mem {β : Type} {k : String} {v : β} {l : List (String × β)}
    (h : Py.alookup k l = some v) : (k, v) ∈ l := by
  induction l with
  | nil => simp [Py.alookup] at h
  | cons e rest ih =>
    obtain ⟨k0, v0⟩ := e
    unfold Py.alookup at h
    split at h
    · next he =>
      injection h with h
      subst h he
      exact List.mem_cons_self _ _
    · exact List.mem_cons_of_mem _ (ih h)

theorem outputsOf_sub (reg : Registry) (name : String) :
    ∀ ot ∈ outputsOf reg name, ot ∈ allOutTypes reg := by
  intro ot hot
  unfold outputsOf at hot
  split at hot
  · next sch hs =>
    have hmem : (name, sch) ∈ reg := by
      have := alookup_mem hs
      exact (List.mem_reverse).mp this
    exact List.mem_flatMap.mpr ⟨(name, sch), hmem, hot⟩
  · simp at hot

theorem pairsFor_mem (reg : Registry) (cur : String) (tn ot : String) :
    (tn, ot) ∈ pairsFor reg cur ↔ tn ∈ consumesOf reg cur ∧ ot ∈ outputsOf reg tn := by
  unfold pairsFor
  constructor
  · intro h
    obtain ⟨tn2, htn2, hmem⟩ := List.mem_flatMap.mp h
    obtain ⟨ot2, hot2, he⟩ := List.mem_map.mp hmem
    injection he with h1 h2
    subst h1
    subst h2
    exact ⟨htn2, hot2⟩
  · rintro ⟨h1, h2⟩
    exact List.mem_flatMap.mpr ⟨tn, h1, List.mem_map.mpr ⟨ot, h2, rfl⟩⟩

theorem expandStep_none_card (goal : String) (plan : List String) (U : Finset String) :
    ∀ (pairs : List (String × String)), (∀ pr ∈ pairs, pr.2 ∈ U) →
    ∀ visited acc v2 q2, expandStep goal plan pairs visited acc = (none, v2, q2) →
      (U.filter (fun t => t ∉ v2)).card + q2.length
          ≤ (U.filter (fun t => t ∉ visited)).card + acc.length
      ∧ (U.filter (fun t => t ∉ v2)).card ≤ (U.filter (fun t => t ∉ visited)).card := by
  intro pairs
  induction pairs with
  | nil =>
    intro hU visited acc v2 q2 h
    unfold expandStep at h
    injection h with h1 h2
    injection h2 with h2 h3
    subst h2 h3
    omega
  | cons pr rest ih =>
    obtain ⟨tn, ot⟩ := pr
    intro hU visited acc v2 q2 h
    unfold expandStep at h
    split at h
    · exact absurd h (by simp)
    · split at h
      · exact ih (fun p hp => hU p (List.mem_cons_of_mem _ hp)) visited acc v2 q2 h
      · next hnv =>
        have hm := ih (fun p hp => hU p (List.mem_cons_of_mem _ hp))
          (visited ++ [ot]) (acc ++ [(ot, plan ++ [tn])]) v2 q2 h
        have hotU : ot ∈ U := hU (tn, ot) (List.mem_cons_self _ _)
        have hfe : U.filter (fun t => t ∉ visited ++ [ot])
            = (U.filter (fun t => t ∉ visited)).erase ot := by
          ext x
          simp only [Finset.mem_filter, Finset.mem_erase, List.mem_append,
            List.mem_singleton]
          constructor
          · rintro ⟨hx, hnx⟩
            push_neg at hnx
            exact ⟨hnx.2, hx, hnx.1⟩
          · rintro ⟨hne, hx, hnx⟩
            exact ⟨hx, by push_neg; exact ⟨hnx, hne⟩⟩
        have hotin : ot ∈ U.filter (fun t => t ∉ visited) :=
          Finset.mem_filter.mpr ⟨hotU, hnv⟩
        have hcard := Finset.card_erase_add_one hotin
        rw [hfe] at hm
        simp only [List.length_append, List.length_cons, List.length_nil] at hm ⊢
        omega

/-- `plan_path`'s BFS loop.  Terminates because each iteration pops one queue
item and any queue growth is paid for by newly visited output types. -/
def bfs (reg : Registry) (goal : String) :
    List String → List (String × List String) → List String
  | _, [] => []
  | visited, (cur, plan) :: rest =>
    match hE : expandStep goal plan (pairsFor reg cur) visited [] with
    | (some res, _, _) => res

    | (none, v2, nq) => bfs reg goal v2 (rest ++ nq)
termination_by visited queue => queue.length + 2 * unvisitedCount reg visited
decreasing_by
  simp only [List.length_append, List.length_cons]
  have hU : ∀ pr ∈ pairsFor reg cur, pr.2 ∈ (allOutTypes reg).toFinset := by
    intro pr hpr
    obtain ⟨tn, ot⟩ := pr
    have := (pairsFor_mem reg cur tn ot).mp hpr
    exact List.mem_toFinset.mpr (outputsOf_sub reg tn ot this.2)
  have := expandStep_none_card goal plan (allOutTypes reg).toFinset
    (pairsFor reg cur) hU visited [] v2 nq hE
  unfold unvisitedCount
  simp only [List.length_nil] at this
  omega

/-- `ToolRegistry.plan_path`. -/
def planPath (reg : Registry) (startType goalType : String) : List String :=
  if startType = goalType then []
  else bfs reg goalType [startType] [(startType, [])]

end ToolReg

namespace ToolReg

/-- Tool chains: `Chain reg x plan y` holds when successively applying the
tools of `plan` (each consuming the current type, producing the next) leads
from type `x` to type `y`. -/
inductive Chain (reg : Registry) : String → List String → String → Prop
  | refl (t : String) : Chain reg t [] t
  | step {x y g : String} {tn : String} {rest : List String} :
      tn ∈ consumesOf reg x → y ∈ outputsOf reg tn → Chain reg y rest g →
      Chain reg x (tn :: rest) g

theorem Chain.snoc {reg : Registry} {s x y : String} {p : List String} {tn : String}
    (h : Chain reg s p x) (h1 : tn ∈ consumesOf reg x) (h2 : y ∈ outputsOf reg tn) :
    Chain reg s (p ++ [tn]) y := by
  induction h with
  | refl t => exact Chain.step h1 h2 (Chain.refl y)
  | step ha hb _ ih => exact Chain.step ha hb (ih h1)

theorem chain_nil {reg : Registry} {s g : String} (h : Chain reg s [] g) : s = g := by
  cases h
  rfl

theorem expandStep_some_spec (goal : String) (plan : List String) :
    ∀ (pairs : List (String × String)) visited acc r v2 q2,
    expandStep goal plan pairs visited acc = (some r, v2, q2) →
    ∃ tn, (tn, goal) ∈ pairs ∧ r = plan ++ [tn] := by
  intro pairs
  induction pairs with
  | nil =>
    intro visited acc r v2 q2 h
    simp [expandStep] at h
  | cons pr rest ih =>
    obtain ⟨tn, ot⟩ := pr
    intro visited acc r v2 q2 h
    unfold expandStep at h
    split at h
    · next he =>
      subst he
      injection h with h1 h2
      injection h1 with h1
      exact ⟨tn, List.mem_cons_self _ _, h1.symm⟩
    · split at h
      · obtain ⟨tn2, hm, hr⟩ := ih visited acc r v2 q2 h
        exact ⟨tn2, List.mem_cons_of_mem _ hm, hr⟩
      · obtain ⟨tn2, hm, hr⟩ := ih (visited ++ [ot]) (acc ++ [(ot, plan ++ [tn])]) r v2 q2 h
        exact ⟨tn2, List.mem_cons_of_mem _ hm, hr⟩

theorem expandStep_none_spec (goal : String) (plan : List String) :
    ∀ (pairs : List (String × String)) visited acc v2 q2,
    expandStep goal plan pairs visited acc = (none, v2, q2) →
    (∃ adds, v2 = visited ++ adds)
    ∧ (∃ tailq, q2 = acc ++ tailq)
    ∧ (∀ pr ∈ pairs, pr.2 ≠ goal ∧ pr.2 ∈ v2)
    ∧ (∀ x ∈ v2, x ∈ visited ∨ (x ≠ goal ∧ ∃ tn, (tn, x) ∈ pairs))
    ∧ (∀ it ∈ q2, it ∈ acc ∨ (∃ tn, (tn, it.1) ∈ pairs ∧ it.2 = plan ++ [tn]
        ∧ it.1 ∉ visited ∧ it.1 ≠ goal ∧ it.1 ∈ v2))
    ∧ (∀ x ∈ v2, x ∉ visited → x ∈ q2.map Prod.fst ∨ x ∈ acc.map Prod.fst) := by
  intro pairs
  induction pairs with
  | nil =>
    intro visited acc v2 q2 h
    unfold expandStep at h
    injection h with h1 h2
    injection h2 with h2 h3
    subst h2 h3
    refine ⟨⟨[], by simp⟩, ⟨[], by simp⟩, by simp, fun x hx => Or.inl hx,
      fun it hit => Or.inl hit, ?_⟩
    intro x hx hnx
    exact absurd hx hnx
  | cons pr rest ih =>
    obtain ⟨tn, ot⟩ := pr
    intro visited acc v2 q2 h
    unfold expandStep at h
    split at h
    · exact absurd h (by simp)
    · next hne =>
      split at h
      · next hv =>
        obtain ⟨hadds, htail, hpairs, hv2, hq2, hnew⟩ := ih visited acc v2 q2 h
        have hsub : visited ⊆ v2 := by
          obtain ⟨adds, he⟩ := hadds
          rw [he]
          exact List.subset_append_left _ _
        refine ⟨hadds, htail, ?_, ?_, ?_, hnew⟩
        · intro pr hpr
          rcases List.mem_cons.mp hpr with he | hm
          · subst he
            exact ⟨hne, hsub hv⟩
          · exact hpairs pr hm
        · intro x hx
          rcases hv2 x hx with hm | ⟨hxg, tn2, hm⟩
          · exact Or.inl hm
          · exact Or.inr ⟨hxg, tn2, List.mem_cons_of_mem _ hm⟩
        · intro it hit
          rcases hq2 it hit with hm | ⟨tn2, hm, hr⟩
          · exact Or.inl hm
          · exact Or.inr ⟨tn2, List.mem_cons_of_mem _ hm, hr⟩
      · next hv =>
        obtain ⟨hadds, htail, hpairs, hv2, hq2, hnew⟩ :=
          ih (visited ++ [ot]) (acc ++ [(ot, plan ++ [tn])]) v2 q2 h
        have hsub : visited ++ [ot] ⊆ v2 := by
          obtain ⟨adds, he⟩ := hadds
          rw [he]
          exact List.subset_append_left _ _
        have hotq : (ot, plan ++ [tn]) ∈ q2 := by
          obtain ⟨tailq, he⟩ := htail
          rw [he]
          exact List.mem_append_left _ (List.mem_append_right _ (by simp))
        refine ⟨?_, ?_, ?_, ?_, ?_, ?_⟩
        · obtain ⟨adds, he⟩ := hadds
          exact ⟨ot :: adds, by simpa using he⟩
        · obtain ⟨tailq, he⟩ := htail
          exact ⟨(ot, plan ++ [tn]) :: tailq, by simpa using he⟩
        · intro pr hpr
          rcases List.mem_cons.mp hpr with he | hm
          · subst he
            exact ⟨hne, hsub (by simp)⟩
          · exact hpairs pr hm
        · intro x hx
          rcases hv2 x hx with hm | ⟨hxg, tn2, hm⟩
          · rcases List.mem_append.mp hm with hm2 | hm2
            · exact Or.inl hm2
            · simp only [List.mem_singleton] at hm2
              subst hm2
              exact Or.inr ⟨hne, tn, List.mem_cons_self _ _⟩
          · exact Or.inr ⟨hxg, tn2, List.mem_cons_of_mem _ hm⟩
        · intro it hit
          rcases hq2 it hit with hm | ⟨tn2, hm, hr1, hr2, hr3, hr4⟩
          · rcases List.mem_append.mp hm with hm2 | hm2
            · exact Or.inl hm2
            · simp only [List.mem_singleton] at hm2
              subst hm2
              exact Or.inr ⟨tn, List.mem_cons_self _ _, rfl, hv, hne, hsub (by simp)⟩
          · refine Or.inr ⟨tn2, List.mem_cons_of_mem _ hm, hr1, ?_, hr3, hr4⟩
            intro hc
            exact hr2 (List.mem_append_left _ hc)
        · intro x hx hnx
          by_cases hxo : x = ot
          · subst hxo
            exact Or.inl (List.mem_map.mpr ⟨(x, plan ++ [tn]), hotq, rfl⟩)
          · rcases hnew x hx (by
              intro hc
              rcases List.mem_append.mp hc with hm2 | hm2
              · exact hnx hm2
              · simp only [List.mem_singleton] at hm2
                exact hxo hm2) with hm | hm
            · exact Or.inl hm
            · rcases List.mem_map.mp hm with ⟨it, hit, he⟩
              rcases List.mem_append.mp hit with hm2 | hm2
              · exact Or.inr (List.mem_map.mpr ⟨it, hm2, he⟩)
              · simp only [List.mem_singleton] at hm2
                subst hm2
                simp only at he
                exact absurd he.symm hxo

end ToolReg

namespace ToolReg

/-- BFS soundness: a non-empty result is a valid tool chain from `start` to
`goal`, provided every queued plan is a valid chain to its queued type. -/
theorem bfs_sound (reg : Registry) (goal start : String) :
    ∀ visited queue, (∀ it ∈ queue, Chain reg start it.2 it.1) →
    bfs reg goal visited queue = [] ∨ Chain reg start (bfs reg goal visited queue) goal := by
  intro visited queue
  induction visited, queue using bfs.induct reg goal with
  | case1 visited => intro _; left; rw [bfs]
  | case2 visited cur plan rest res v2 q2 hE =>
    intro hq
    right
    rw [bfs]
    rw [hE]
    obtain ⟨tn, hmem, hr⟩ := expandStep_some_spec goal plan (pairsFor reg cur)
      visited [] res v2 q2 hE
    have hpr := (pairsFor_mem reg cur tn goal).mp hmem
    have hc := hq (cur, plan) (List.mem_cons_self _ _)
    subst hr
    exact Chain.snoc hc hpr.1 hpr.2
  | case3 visited cur plan rest v2 nq hE ih =>
    intro hq
    rw [bfs, hE]
    apply ih
    intro it hit
    rcases List.mem_append.mp hit with hm | hm
    · exact hq it (List.mem_cons_of_mem _ hm)
    · obtain ⟨-, -, -, -, hq2, -⟩ := expandStep_none_spec goal plan (pairsFor reg cur)
        visited [] v2 nq hE
      rcases hq2 it hm with hc | ⟨tn, hmem, hpl, -, -, -⟩
      · simp at hc
      · have hpr := (pairsFor_mem reg cur tn it.1).mp hmem
        have hc := hq (cur, plan) (List.mem_cons_self _ _)
        rw [hpl]
        exact Chain.snoc hc hpr.1 hpr.2

end ToolReg

namespace ToolReg

/-- The FIFO queue of the BFS always consists of a block of plans of some
length `L` followed by a block of plans of length `L + 1`. -/
def TwoBlock (queue : List (String × List String)) : Prop :=
  ∃ L A B, queue = A ++ B ∧ (∀ it ∈ A, it.2.length = L) ∧ (∀ it ∈ B, it.2.length = L + 1)

theorem twoblock_head {cur : String} {plan : List String}
    {rest : List (String × List String)} (h : TwoBlock ((cur, plan) :: rest)) :
    (∀ it ∈ (cur, plan) :: rest, plan.length ≤ it.2.length)
    ∧ (∀ it ∈ rest, it.2.length ≤ plan.length + 1) := by
  obtain ⟨L, A, B, he, hA, hB⟩ := h
  cases A with
  | nil =>
    simp only [List.nil_append] at he
    have hplan : plan.length = L + 1 := by
      have := hB (cur, plan) (he ▸ List.mem_cons_self _ _)
      simpa using this
    constructor
    · intro it hit
      have := hB it (he ▸ hit)
      omega
    · intro it hit
      have := hB it (he ▸ List.mem_cons_of_mem _ hit)
      omega
  | cons a A2 =>
    rw [List.cons_append] at he
    have hac : a = (cur, plan) ∧ rest = A2 ++ B := by
      have h1 := List.head_eq_of_cons_eq he.symm
      have h2 := List.tail_eq_of_cons_eq he.symm
      exact ⟨h1, h2.symm⟩
    obtain ⟨ha, hr⟩ := hac
    subst ha
    have hplan : plan.length = L := by simpa using hA (cur, plan) (List.mem_cons_self _ _)
    constructor
    · intro it hit
      rcases List.mem_cons.mp hit with he2 | hit2
      · subst he2; exact Nat.le_refl _
      · rw [hr] at hit2
        rcases List.mem_append.mp hit2 with hm | hm
        · have := hA it (List.mem_cons_of_mem _ hm); omega
        · have := hB it hm; omega
    · intro it hit
      rw [hr] at hit
      rcases List.mem_append.mp hit with hm | hm
      · have := hA it (List.mem_cons_of_mem _ hm); omega
      · have := hB it hm; omega

theorem twoblock_step {cur : String} {plan : List String}
    {rest nq : List (String × List String)} (h : TwoBlock ((cur, plan) :: rest))
    (hnq : ∀ it ∈ nq, it.2.length = plan.length + 1) : TwoBlock (rest ++ nq) := by
  obtain ⟨L, A, B, he, hA, hB⟩ := h
  cases A with
  | nil =>
    simp only [List.nil_append] at he
    have hplan : plan.length = L + 1 := by
      have := hB (cur, plan) (he ▸ List.mem_cons_self _ _)
      simpa using this
    refine ⟨L + 1, rest, nq, rfl, ?_, ?_⟩
    · intro it hit
      have := hB it (he ▸ List.mem_cons_of_mem _ hit)
      omega
    · intro it hit
      have := hnq it hit
      omega
  | cons a A2 =>
    rw [List.cons_append] at he
    have ha : a = (cur, plan) := List.head_eq_of_cons_eq he.symm
    have hr : rest = A2 ++ B := (List.tail_eq_of_cons_eq he.symm).symm
    subst ha
    have hplan : plan.length = L := by simpa using hA (cur, plan) (List.mem_cons_self _ _)
    refine ⟨L, A2, B ++ nq, by rw [hr, List.append_assoc], ?_, ?_⟩
    · intro it hit
      exact hA it (List.mem_cons_of_mem _ hit)
    · intro it hit
      rcases List.mem_append.mp hit with hm | hm
      · exact hB it hm
      · have := hnq it hm
        omega

theorem expandStep_none_nodup (goal : String) (plan : List String) :
    ∀ (pairs : List (String × String)) visited acc v2 q2,
    expandStep goal plan pairs visited acc = (none, v2, q2) →
    (acc.map Prod.fst).Nodup → (∀ x ∈ acc.map Prod.fst, x ∈ visited) →
    (q2.map Prod.fst).Nodup := by
  intro pairs
  induction pairs with
  | nil =>
    intro visited acc v2 q2 h hnd hsub
    unfold expandStep at h
    injection h with h1 h2
    injection h2 with h2 h3
    subst h3
    exact hnd
  | cons pr rest ih =>
    obtain ⟨tn, ot⟩ := pr
    intro visited acc v2 q2 h hnd hsub
    unfold expandStep at h
    split at h
    · exact absurd h (by simp)
    · split at h
      · exact ih visited acc v2 q2 h hnd hsub
      · next hnv =>
        refine ih (visited ++ [ot]) (acc ++ [(ot, plan ++ [tn])]) v2 q2 h ?_ ?_
        · rw [List.map_append]
          refine List.Nodup.append hnd (by simp) ?_
          intro x hxa hxo
          simp only [List.map_cons, List.map_nil, List.mem_singleton] at hxo
          subst hxo
          exact hnv (hsub x hxa)
        · intro x hxa
          rw [List.map_append] at hxa
          rcases List.mem_append.mp hxa with hm | hm
          · exact List.mem_append_left _ (hsub x hm)
          · simp only [List.map_cons, List.map_nil, List.mem_singleton] at hm
            subst hm
            simp

/-- Descent along a chain through already-visited types: under the
processed-closure invariant, any visited type with a chain to the goal yields
a queued item whose plan-plus-remaining-chain length is bounded by the queue
length window plus the chain length. -/
theorem visited_descent (reg : Registry) (goal : String) (visited : List String)
    (queue : List (String × List String)) (Lb : Nat)
    (hwin : ∀ it ∈ queue, it.2.length ≤ Lb)
    (hproc : ∀ x ∈ visited, x ∉ queue.map Prod.fst →
        ∀ tn ∈ consumesOf reg x, ∀ ot ∈ outputsOf reg tn, ot ≠ goal ∧ ot ∈ visited)
    (hgoal : goal ∉ visited) :
    ∀ (c : List String) (x : String), x ∈ visited → Chain reg x c goal →
      ∃ t2 pl2 c2, (t2, pl2) ∈ queue ∧ Chain reg t2 c2 goal ∧
        pl2.length + c2.length ≤ Lb + c.length := by
  intro c
  induction c with
  | nil =>
    intro x hx hc
    exact absurd ((chain_nil hc) ▸ hx) hgoal
  | cons tn c2 ih =>
    intro x hx hc
    by_cases hxq : x ∈ queue.map Prod.fst
    · obtain ⟨it, hit, he⟩ := List.mem_map.mp hxq
      refine ⟨it.1, it.2, tn :: c2, by simpa using hit, he ▸ hc, ?_⟩
      have := hwin it hit
      simp only [List.length_cons]
      omega
    · cases hc with
      | step htn hy hc2 =>
        next y =>
        have hfacts := hproc x hx hxq tn htn y hy
        obtain ⟨t2, pl2, c3, h1, h2, h3⟩ := ih y hfacts.2 hc2
        refine ⟨t2, pl2, c3, h1, h2, ?_⟩
        simp only [List.length_cons]
        omega

end ToolReg

namespace ToolReg

/-- BFS completeness with minimality: from a queue state satisfying the BFS
invariants, if some queued item has a chain to the goal, the result is a
valid chain whose length is at most that item's plan length plus that chain's
length.  Instantiated at the initial state this gives both completeness and
shortest-plan optimality of `plan_path`. -/
theorem bfs_min (reg : Registry) (goal start : String) :
    ∀ visited queue,
    (∀ it ∈ queue, Chain reg start it.2 it.1) →
    TwoBlock queue →
    ((queue.map Prod.fst).Nodup) →
    (∀ it ∈ queue, it.1 ∈ visited) →
    goal ∉ visited →
    (∀ x ∈ visited, x ∉ queue.map Prod.fst →
        ∀ tn ∈ consumesOf reg x, ∀ ot ∈ outputsOf reg tn, ot ≠ goal ∧ ot ∈ visited) →
    ∀ t pl c, (t, pl) ∈ queue → Chain reg t c goal →
      Chain reg start (bfs reg goal visited queue) goal ∧
        (bfs reg goal visited queue).length ≤ pl.length + c.length := by
  intro visited queue
  induction visited, queue using bfs.induct reg goal with
  | case1 visited =>
    intro _ _ _ _ _ _ t pl c hmem _
    simp at hmem
  | case2 visited cur plan rest res v2 q2 hE =>
    intro hq htb hnd hqv hgv hproc t pl c hmem hc
    rw [bfs, hE]
    obtain ⟨tn, hpmem, hr⟩ := expandStep_some_spec goal plan (pairsFor reg cur)
      visited [] res v2 q2 hE
    have hpr := (pairsFor_mem reg cur tn goal).mp hpmem
    have hchain : Chain reg start res goal := by
      subst hr
      exact Chain.snoc (hq (cur, plan) (List.mem_cons_self _ _)) hpr.1 hpr.2
    refine ⟨hchain, ?_⟩
    have hhead := (twoblock_head htb).1 (t, pl) hmem
    have hclen : 1 ≤ c.length := by
      rcases c with - | ⟨c0, cs⟩
      · have ht : t = goal := chain_nil hc
        subst ht
        exact absurd (hqv (t, pl) hmem) hgv
      · simp
    subst hr
    simp only [List.length_append, List.length_cons, List.length_nil] at hhead ⊢
    omega
  | case3 visited cur plan rest v2 nq hE ih =>
    intro hq htb hnd hqv hgv hproc t pl c hmem hc
    rw [bfs, hE]
    obtain ⟨⟨adds, haddse⟩, ⟨tailq, htailq⟩, hallp, hv2mem, hq2, hnewq⟩ :=
      expandStep_none_spec goal plan (pairsFor reg cur) visited [] v2 nq hE
    have hvsub : visited ⊆ v2 := by
      rw [haddse]
      exact List.subset_append_left _ _
    have hnq_form : ∀ it ∈ nq, ∃ tn, (tn, it.1) ∈ pairsFor reg cur
        ∧ it.2 = plan ++ [tn] ∧ it.1 ∉ visited ∧ it.1 ≠ goal ∧ it.1 ∈ v2 := by
      intro it hit
      rcases hq2 it hit with hcontra | hok
      · simp at hcontra
      · exact hok
    have hq' : ∀ it ∈ rest ++ nq, Chain reg start it.2 it.1 := by
      intro it hit
      rcases List.mem_append.mp hit with hm | hm
      · exact hq it (List.mem_cons_of_mem _ hm)
      · obtain ⟨tn, hpm, hpl, -, -, -⟩ := hnq_form it hm
        have hpr := (pairsFor_mem reg cur tn it.1).mp hpm
        rw [hpl]
        exact Chain.snoc (hq (cur, plan) (List.mem_cons_self _ _)) hpr.1 hpr.2
    have hnq_len : ∀ it ∈ nq, it.2.length = plan.length + 1 := by
      intro it hit
      obtain ⟨tn, -, hpl, -⟩ := hnq_form it hit
      simp [hpl]
    have htb' : TwoBlock (rest ++ nq) := twoblock_step htb hnq_len
    have hnd_rest : (rest.map Prod.fst).Nodup := by
      have := hnd
      simp only [List.map_cons] at this
      exact (List.nodup_cons.mp this).2
    have hnq_nd : (nq.map Prod.fst).Nodup :=
      expandStep_none_nodup goal plan (pairsFor reg cur) visited [] v2 nq hE
        (by simp) (by simp)
    have hnd' : (((rest ++ nq).map Prod.fst)).Nodup := by
      rw [List.map_append]
      refine List.Nodup.append hnd_rest hnq_nd ?_
      intro x hxr hxn
      obtain ⟨it, hit, he⟩ := List.mem_map.mp hxn
      obtain ⟨tn, -, -, hnv, -, -⟩ := hnq_form it hit
      rw [he] at hnv
      obtain ⟨it2, hit2, he2⟩ := List.mem_map.mp hxr
      exact hnv (he2 ▸ hqv it2 (List.mem_cons_of_mem _ hit2))
    have hqv' : ∀ it ∈ rest ++ nq, it.1 ∈ v2 := by
      intro it hit
      rcases List.mem_append.mp hit with hm | hm
      · exact hvsub (hqv it (List.mem_cons_of_mem _ hm))
      · exact (hnq_form it hm).choose_spec.2.2.2.2
    have hgv' : goal ∉ v2 := by
      intro hg
      rcases hv2mem goal hg with hm | ⟨hne, -⟩
      · exact hgv hm
      · exact hne rfl
    have hcurv : cur ∈ visited := hqv (cur, plan) (List.mem_cons_self _ _)
    have hproc' : ∀ x ∈ v2, x ∉ (rest ++ nq).map Prod.fst →
        ∀ tn ∈ consumesOf reg x, ∀ ot ∈ outputsOf reg tn, ot ≠ goal ∧ ot ∈ v2 := by
      intro x hx hnotq tn htn ot hot
      by_cases hxv : x ∈ visited
      · by_cases hxc : x = cur
        · subst hxc
          have hpm : (tn, ot) ∈ pairsFor reg x := (pairsFor_mem reg x tn ot).mpr ⟨htn, hot⟩
          exact hallp (tn, ot) hpm
        · have hxorig : x ∉ ((cur, plan) :: rest).map Prod.fst := by
            simp only [List.map_cons, List.mem_cons]
            push_neg
            refine ⟨hxc, ?_⟩
            intro hcm
            exact hnotq (by rw [List.map_append]; exact List.mem_append_left _ hcm)
          have := hproc x hxv hxorig tn htn ot hot
          exact ⟨this.1, hvsub this.2⟩
      · rcases hnewq x hx hxv with hm | hm
        · exact absurd (by rw [List.map_append]; exact List.mem_append_right _ hm) hnotq
        · simp at hm
    have hwin' : ∀ it ∈ rest ++ nq, it.2.length ≤ plan.length + 1 := by
      intro it hit
      rcases List.mem_append.mp hit with hm | hm
      · exact (twoblock_head htb).2 it hm
      · exact Nat.le_of_eq (hnq_len it hm)
    have hheadmin := (twoblock_head htb).1 (t, pl) hmem
    rcases List.mem_cons.mp hmem with heq | hrest
    · -- the popped head item: t = cur, pl = plan
      cases heq
      cases hc with
      | refl =>
        exact absurd (hqv _ hmem) hgv
      | step htn hy hc2 =>
        next y tn2 c2 =>
        have hpm : (tn2, y) ∈ pairsFor reg cur := (pairsFor_mem reg cur tn2 y).mpr ⟨htn, hy⟩
        have hyfacts := hallp (tn2, y) hpm
        by_cases hyq : y ∈ (rest ++ nq).map Prod.fst
        · obtain ⟨it, hit, he⟩ := List.mem_map.mp hyq
          have hres := ih hq' htb' hnd' hqv' hgv' hproc' it.1 it.2 c2
            (by simpa using hit) (he ▸ hc2)
          refine ⟨hres.1, ?_⟩
          have hb := hwin' it hit
          have := hres.2
          simp only [List.length_cons]
          omega
        · have hyv2 : y ∈ v2 := hyfacts.2
          obtain ⟨t2, pl2, c3, h1, h2, h3⟩ :=
            visited_descent reg goal v2 (rest ++ nq) (plan.length + 1)
              hwin' hproc' hgv' c2 y hyv2 hc2
          have hres := ih hq' htb' hnd' hqv' hgv' hproc' t2 pl2 c3 h1 h2
          refine ⟨hres.1, ?_⟩
          have := hres.2
          simp only [List.length_cons]
          omega
    · have hres := ih hq' htb' hnd' hqv' hgv' hproc' t pl c
        (List.mem_append_left _ hrest) hc
      exact hres

end ToolReg

namespace ToolReg

/-- `plan_path` returns a valid chain of minimal tool count whenever start
and goal differ and some chain connects them. -/
theorem planPath_spec (reg : Registry) (startType goalType : String)
    (hne : startType ≠ goalType) (c : List String)
    (hc : Chain reg startType c goalType) :
    Chain reg startType (planPath reg startType goalType) goalType
    ∧ (planPath reg startType goalType).length ≤ c.length := by
  unfold planPath
  rw [if_neg hne]
  have h := bfs_min reg goalType startType [startType] [(startType, [])]
    (by
      intro it hit
      simp only [List.mem_singleton] at hit
      subst hit
      exact Chain.refl startType)
    ⟨0, [(startType, [])], [], by simp, by simp, by simp⟩
    (by simp)
    (by simp)
    (by simpa using fun he => hne he.symm)
    (by
      intro x hx hnx
      simp only [List.mem_singleton] at hx
      simp only [List.map_cons, List.map_nil, List.mem_singleton] at hnx
      exact absurd hx hnx)
    startType [] c (by simp) hc
  simpa using h

/-- `plan_path` never raises and is sound: a non-empty result is a valid
chain. -/
theorem planPath_sound (reg : Registry) (s g : String) :
    planPath reg s g = [] ∨ Chain reg s (planPath reg s g) g := by
  by_cases he : s = g
  · left
    unfold planPath
    rw [if_pos he]
  · unfold planPath
    rw [if_neg he]
    exact bfs_sound reg g s [s] [(s, [])]
      (by
        intro it hit
        simp only [List.mem_singleton] at hit
        subst hit
        exact Chain.refl s)

/-- The empty plan is returned exactly when start equals goal or no chain
connects start to goal. -/
theorem planPath_empty_iff (reg : Registry) (s g : String) :
    planPath reg s g = [] ↔ (s = g ∨ ∀ c, ¬ Chain reg s c g) := by
  constructor
  · intro h
    by_cases he : s = g
    · exact Or.inl he
    · refine Or.inr fun c hc => ?_
      have := (planPath_spec reg s g he c hc).1
      rw [h] at this
      exact he (chain_nil this)
  · rintro (he | hnc)
    · unfold planPath
      rw [if_pos he]
    · rcases planPath_sound reg s g with h | h
      · exact h
      · exact absurd h (hnc _)

/-- The single-tool registry of the specification's example: one tool `T`
consuming `"csv"` and producing `"hierarchy"`. -/
def regT : Registry :=
  [("T", { inputs := [("src", { type := some "csv", required := true, remember := false })]
         , outputs := [("out", { type := some "hierarchy", required := false, remember := false })] })]

/-- Two tools both consuming `"csv"` and producing `"hierarchy"`, registered
as `A` then `B` (a planning tie). -/
def regTie : Registry :=
  [ ("A", { inputs := [("src", { type := some "csv", required := true, remember := false })]
          , outputs := [("out", { type := some "hierarchy", required := false, remember := false })] })
  , ("B", { inputs := [("src", { type := some "csv", required := true, remember := false })]
          , outputs := [("out", { type := some "hierarchy", required := false, remember := false })] }) ]

/-- Evaluation helper: when the first expansion step already reaches the
goal, the BFS returns that plan. -/
theorem bfs_eval_some (reg : Registry) (goal : String) (visited : List String)
    (cur : String) (plan : List String) (rest : List (String × List String))
    (res : List String) (v2x : List String) (q2x : List (String × List String))
    (hscrut : expandStep goal plan (pairsFor reg cur) visited [] = (some res, v2x, q2x)) :
    bfs reg goal visited ((cur, plan) :: rest) = res := by
  rw [bfs]
  split
  · next res2 f s heq =>
    have h := hscrut.symm.trans heq
    simp only [Prod.mk.injEq, Option.some.injEq] at h
    exact h.1.symm
  · next v2 nq heq =>
    have h := hscrut.symm.trans heq
    simp at h

end ToolReg

namespace ArPlanner

open ToolReg

/-- The output types scanned by `ArtifactRegistry.plan_path`
(`[v["type"] for v in ...outputs.values()]`): unlike the capability-registry
planner there is no truthiness filter, and a spec without a `"type"` key
raises `KeyError`, modelled as `none`. -/
def arOutTypes (sch : IOSchema) : Option (List String) :=
  sch.outputs.mapM (fun e => e.2.type)

/-- One frontier expansion of `ArtifactRegistry.plan_path`: for each tool
consuming the current type, append its (not-yet-visited) output types with
the extended path.  `Except.error` models a raised `KeyError` (or a missing
registry entry). -/
def arExpand (reg : Registry) (visited : List String) (path : List String) :
    List String → Except Unit (List (String × List String))
  | [] => .ok []
  | tn :: rest =>
    match Py.alookup tn reg.reverse with
    | none => .error ()
    | some sch =>
      match arOutTypes sch with
      | none => .error ()
      | some outs =>
        match arExpand reg visited path rest with
        | .error e => .error e
        | .ok tailItems =>
          .ok (((outs.filter (fun ot => ot ∉ visited)).map (fun ot => (ot, path ++ [tn])))
            ++ tailItems)

/-- The `while frontier` loop of `ArtifactRegistry.plan_path`, with explicit
fuel.  The source loop always terminates (each pop either returns or marks a
type visited, and only unvisited types are ever enqueued); running out of
fuel returns the same `[]` the exhausted loop would, and every property
proved below holds for every fuel value. -/
def arBfs (reg : Registry) (goal : String) :
    Nat → List String → List (String × List String) → Except Unit (List String)
  | 0, _, _ => .ok []
  | _ + 1, _, [] => .ok []
  | fuel + 1, visited, (cur, path) :: rest =>
    if cur = goal then .ok path
    else
      let visited2 := visited ++ [cur]
      match arExpand reg visited2 path (consumesOf reg cur) with
      | .error e => .error e
      | .ok newItems => arBfs reg goal fuel visited2 (rest ++ newItems)

/-- `ArtifactRegistry.plan_path`. -/
def arPlanPath (fuel : Nat) (reg : Registry) (startType goalType : String) :
    Except Unit (List String) :=
  arBfs reg goalType fuel [] [(startType, [])]

/-- Chains over the edges `ArtifactRegistry.plan_path` explores. -/
inductive ArChain (reg : Registry) : String → List String → String → Prop
  | refl (t : String) : ArChain reg t [] t
  | step {x y g : String} {tn : String} {sch : IOSchema} {outs rest : List String} :
      tn ∈ consumesOf reg x → Py.alookup tn reg.reverse = some sch →
      arOutTypes sch = some outs → y ∈ outs → ArChain reg y rest g →
      ArChain reg x (tn :: rest) g

theorem arChain_nil {reg : Registry} {s g : String} (h : ArChain reg s [] g) : s = g := by
  cases h
  rfl

theorem arChain_snoc {reg : Registry} {s x y : String} {p : List String} {tn : String}
    {sch : IOSchema} {outs : List String}
    (h : ArChain reg s p x) (h1 : tn ∈ consumesOf reg x)
    (h2 : Py.alookup tn reg.reverse = some sch) (h3 : arOutTypes sch = some outs)
    (h4 : y ∈ outs) : ArChain reg s (p ++ [tn]) y := by
  induction h with
  | refl t => exact ArChain.step h1 h2 h3 h4 (ArChain.refl y)
  | step ha hb hcx hd _ ih => exact ArChain.step ha hb hcx hd (ih h1)

theorem arExpand_mem (reg : Registry) (visited path : List String) :
    ∀ (tns : List String) (items : List (String × List String)),
    arExpand reg visited path tns = .ok items →
    ∀ it ∈ items, ∃ tn sch outs, tn ∈ tns ∧ Py.alookup tn reg.reverse = some sch
      ∧ arOutTypes sch = some outs ∧ it.1 ∈ outs ∧ it.2 = path ++ [tn] := by
  intro tns
  induction tns with
  | nil =>
    intro items h it hit
    unfold arExpand at h
    injection h with h
    subst h
    simp at hit
  | cons tn rest ih =>
    intro items h it hit
    unfold arExpand at h
    split at h
    · exact absurd h (by simp)
    · next sch hsch =>
      split at h
      · exact absurd h (by simp)
      · next outs houts =>
        split at h
        · exact absurd h (by simp)
        · next tailItems htail =>
          injection h with h
          subst h
          rcases List.mem_append.mp hit with hm | hm
          · obtain ⟨ot, hot, he⟩ := List.mem_map.mp hm
            subst he
            exact ⟨tn, sch, outs, List.mem_cons_self _ _, hsch, houts,
              (List.mem_filter.mp hot).1, rfl⟩
          · obtain ⟨tn2, sch2, outs2, h1, h2, h3, h4, h5⟩ := ih tailItems htail it hm
            exact ⟨tn2, sch2, outs2, List.mem_cons_of_mem _ h1, h2, h3, h4, h5⟩

theorem arBfs_sound (reg : Registry) (goal start : String) :
    ∀ fuel visited frontier,
    (∀ it ∈ frontier, ArChain reg start it.2 it.1) →
    ∀ p, arBfs reg goal fuel visited frontier = .ok p →
    p = [] ∨ ArChain reg start p goal := by
  intro fuel
  induction fuel with
  | zero =>
    intro visited frontier hf p h
    unfold arBfs at h
    injection h with h
    exact Or.inl h.symm
  | succ fuel ih =>
    intro visited frontier hf p h
    match frontier with
    | [] =>
      unfold arBfs at h
      injection h with h
      exact Or.inl h.symm
    | (cur, path) :: rest =>
      unfold arBfs at h
      split at h
      · next he =>
        injection h with h
        subst h
        subst he
        exact Or.inr (hf (cur, path) (List.mem_cons_self _ _))
      · dsimp only at h
        split at h
        · exact absurd h (by simp)
        · next newItems hexp =>
          refine ih (visited ++ [cur]) (rest ++ newItems) ?_ p h
          intro it hit
          rcases List.mem_append.mp hit with hm | hm
          · exact hf it (List.mem_cons_of_mem _ hm)
          · obtain ⟨tn, sch, outs, h1, h2, h3, h4, h5⟩ :=
              arExpand_mem reg (visited ++ [cur]) path (consumesOf reg cur)
                newItems hexp it hm
            rw [h5]
            exact arChain_snoc (hf (cur, path) (List.mem_cons_self _ _)) h1 h2 h3 h4

end ArPlanner

/-- C3: for every registry and every pair of distinct types connected by a
tool chain, `plan_path` returns a valid connecting chain of minimum tool
count (BFS shortest path); on the single-tool registry `csv → hierarchy` it
returns `["T"]`, and on a two-tool tie registered as `A` then `B` the
first-registered tool wins. -/
theorem claim_C3 :
    (∀ (reg : ToolReg.Registry) (startType goalType : String) (c : List String),
      startType ≠ goalType →
      ToolReg.Chain reg startType c goalType →
      ToolReg.Chain reg startType (ToolReg.planPath reg startType goalType) goalType
      ∧ (ToolReg.planPath reg startType goalType).length ≤ c.length)
    ∧ ToolReg.planPath ToolReg.regT "csv" "hierarchy" = ["T"]
    ∧ ToolReg.planPath ToolReg.regTie "csv" "hierarchy" = ["A"] := by
  refine ⟨?_, ?_, ?_⟩
  · intro reg s g c hne hc
    exact ToolReg.planPath_spec reg s g hne c hc
  · rw [ToolReg.planPath, if_neg (by decide)]
    exact ToolReg.bfs_eval_some ToolReg.regT "hierarchy" ["csv"] "csv" [] []
      ["T"] ["csv"] [] (by rfl)
  · rw [ToolReg.planPath, if_neg (by decide)]
    exact ToolReg.bfs_eval_some ToolReg.regTie "hierarchy" ["csv"] "csv" [] []
      ["A"] ["csv"] [] (by rfl)

/-- C3 witness: the general shortest-chain statement of `claim_C3`
instantiated on the concrete single-tool registry with the one-step chain
`["T"]`. -/
theorem claim_C3_witness :
    ToolReg.Chain ToolReg.regT "csv" (ToolReg.planPath ToolReg.regT "csv" "hierarchy")
        "hierarchy"
    ∧ (ToolReg.planPath ToolReg.regT "csv" "hierarchy").length ≤ (["T"] : List String).length :=
  claim_C3.1 ToolReg.regT "csv" "hierarchy" ["T"] (by decide)
    (ToolReg.Chain.step (by decide) (by decide) (ToolReg.Chain.refl "hierarchy"))

/-- C8: `plan_path` returns the empty plan exactly when start equals goal or
no tool chain connects start to goal, as a normal return value (the function
has no raising path); the `ArtifactRegistry.plan_path` variant likewise
returns `.ok []` for `X → X` and only ever returns a non-empty plan that is
a valid chain, so absence of a chain yields the empty plan there too. -/
theorem claim_C8 :
    (∀ (reg : ToolReg.Registry) (X : String), ToolReg.planPath reg X X = [])
    ∧ (∀ (reg : ToolReg.Registry) (s g : String),
        ToolReg.planPath reg s g = [] ↔ (s = g ∨ ∀ c, ¬ ToolReg.Chain reg s c g))
    ∧ (∀ (fuel : Nat) (reg : ToolReg.Registry) (X : String), 1 ≤ fuel →
        ArPlanner.arPlanPath fuel reg X X = .ok [])
    ∧ (∀ (fuel : Nat) (reg : ToolReg.Registry) (s g : String) (p : List String),
        ArPlanner.arPlanPath fuel reg s g = .ok p →
        p = [] ∨ ArPlanner.ArChain reg s p g) := by
  refine ⟨?_, ?_, ?_, ?_⟩
  · intro reg X
    rw [ToolReg.planPath, if_pos rfl]
  · intro reg s g
    exact ToolReg.planPath_empty_iff reg s g
  · intro fuel reg X hf
    match fuel, hf with
    | f + 1, _ =>
      rw [ArPlanner.arPlanPath, ArPlanner.arBfs, if_pos rfl]
  · intro fuel reg s g p h
    exact ArPlanner.arBfs_sound reg g s fuel [] [(s, [])]
      (by
        intro it hit
        simp only [List.mem_singleton] at hit
        subst hit
        exact ArPlanner.ArChain.refl s) p h

/-- C8 witness: the `X → X` facts instantiated concretely for both planner
variants, and the no-chain direction on a concrete unreachable goal. -/
theorem claim_C8_witness :
    ArPlanner.arPlanPath 1 ToolReg.regT "csv" "csv" = .ok []
    ∧ (ToolReg.planPath ToolReg.regT "nope" "nowhere" = []
        ↔ ("nope" = "nowhere" ∨ ∀ c, ¬ ToolReg.Chain ToolReg.regT "nope" c "nowhere")) :=
  ⟨claim_C8.2.2.1 1 ToolReg.regT "csv" (by decide),
   claim_C8.2.1 ToolReg.regT "nope" "nowhere"⟩

namespace Agent

open AgentR

/-- A Python exception, by type name and message. -/
structure PyExc where
  ty : String
  msg : String
deriving DecidableEq, Repr

/-- The artifact registry state: packages, the active-package pointer, and
the modelled `uuid4`/wall-clock sources (a deterministic id counter and a
fixed timestamp string). -/
structure ArtStore where
  packages : List (String × ArtifactPkg.Package)
  activePackage : Option String
  uuidCtr : Nat
  nowIso : String

/-- `ArtifactRegistry.add_artifact`: raises `ValueError` for a missing
package, otherwise constructs an `Artifact` (fresh uuid, name parameter
unused by this call path) and registers it through
`ArtifactPackage.add_artifact`. -/
def ArtStore.addArtifact (st : ArtStore) (pkgName : String) (type_ : String)
    (content : ArtifactPkg.AContent) (metadata : List (String × ArtifactPkg.MetaVal)) :
    Except PyExc (ArtStore × ArtifactPkg.Artifact) :=
  match Py.alookup pkgName st.packages with
  | none => .error { ty := "ValueError", msg := "Package \x27" ++ pkgName ++ "\x27 does not exist." }
  | some pkg =>
    let a : ArtifactPkg.Artifact :=
      { id := "uuid-" ++ Nat.repr st.uuidCtr, type := type_, content := content,
        metadata := metadata, announceMark := none, createdAtTag := "" }
    let pa := ArtifactPkg.addArtifactP st.nowIso true pkg a
    .ok ({ st with packages := Py.aset pkgName pa.1 st.packages, uuidCtr := st.uuidCtr + 1 }, pa.2)

/-- The reserved workspace-store artifact name. -/
def wsName : String := "_workspace_store"

/-- The reserved workspace-store artifact type. -/
def wsType : String := "workspace"

/-- The fresh workspace content created by `_load_ws`
(`{"artifacts": {}, "memory": {}, "injections_once": {}}`). -/
def emptyWs : ArtifactPkg.WsContent :=
  { artifactsMap := [], memory := [], injectionsOnce := [], sessions := [],
    pendingSessionSid := none, pendingContractSwitch := none }

/-- The scan of `_load_ws` for the workspace artifact: first artifact with
the reserved type and name whose content is the workspace dict.  (An
artifact with matching type/name but non-dict content makes the Python
`try` fall through to the create branch.) -/
def findWs (pkg : ArtifactPkg.Package) : Option (String × ArtifactPkg.WsContent) :=
  pkg.artifacts.findSome? (fun ia =>
    if ia.2.type = wsType ∧ ia.2.name = some wsName then
      match ia.2.content with
      | .wsc w => some (ia.2.id, w)
      | _ => none
    else none)

/-- `_load_ws(artifacts, pkg)`: raise for a falsy package name; return the
existing workspace artifact's id and content, or lazily create the store
(which raises `ValueError` if the package itself does not exist). -/
def loadWs (st : ArtStore) (pkg : Option String) :
    Except PyExc (ArtStore × String × ArtifactPkg.WsContent) :=
  match pkg with
  | none => .error { ty := "ValueError", msg := "No active package for workspace store" }
  | some p =>
    if p = "" then .error { ty := "ValueError", msg := "No active package for workspace store" }
    else
      match Py.alookup p st.packages with
      | some pkgObj =>
        match findWs pkgObj with
        | some (aid, w) => .ok (st, aid, w)
        | none =>
          (st.addArtifact p wsType (.wsc emptyWs)
              [("ui_summary", .s "Workspace store"), ("name", .s wsName)]).map
            (fun sa => (sa.1, sa.2.id, emptyWs))
      | none =>
        (st.addArtifact p wsType (.wsc emptyWs)
            [("ui_summary", .s "Workspace store"), ("name", .s wsName)]).map
          (fun sa => (sa.1, sa.2.id, emptyWs))

/-- `_save_ws`: assign the new content to the stored workspace artifact
(in-place object mutation; `ArtifactRegistry` has no `update_artifact`, so
that branch is skipped). -/
def saveWs (st : ArtStore) (p : String) (wsArtId : String)
    (w : ArtifactPkg.WsContent) : ArtStore :=
  match Py.alookup p st.packages with
  | none => st
  | some pkg =>
    match Py.alookup wsArtId pkg.artifacts with
    | none => st
    | some a =>
      let a2 := { a with content := .wsc w }
      let pkg2 := { pkg with artifacts := Py.aset wsArtId a2 pkg.artifacts }
      { st with packages := Py.aset p pkg2 st.packages }

/-- A tool implementation: `tool_cls().run(resolved_input, artifacts=...,
package_name=...)`, possibly raising, possibly mutating the store. -/
def ToolFun : Type :=
  Resolver.PyVal → ArtStore → Option String → Except PyExc (ArtStore × RunResult)

/-- A registered tool: its class behaviour and normalized `io_schema` (the
`description`/`category`/`artifacts` metadata are never read by `run`). -/
structure ToolDef where
  impl : ToolFun
  ioSchema : ToolReg.IOSchema

/-- The per-thread conversational memory of the langgraph `MemorySaver`:
`thread_id → (artifact_ids, notes)`. -/
def MemState : Type := List (String × (List String × List String))

/-- The external `MemorySaver` API (`get`/`put` on the `conversation`
checkpoint namespace), uninterpreted: either call may raise. -/
structure MemSaver where
  get : String → MemState → Except PyExc (List String × List String)
  put : String → (List String × List String) → MemState → Except PyExc MemState

/-- One record of the dispatcher history (the duplicated `state` field and
`kwargs` are omitted). -/
structure HistRecord where
  tool : String
  package : Option String
  input : Resolver.PyVal
  output : RunResult

/-- The mutable dispatcher state of `AgentCore`.  `sessionAutoswitch` is the
`config["session_autoswitch"]` entry (initialised by `__init__`, so always
present). -/
structure AgentState where
  store : ArtStore
  toolsReg : List (String × ToolDef)
  history : List HistRecord
  lastAnnounced : List (String × String)
  lastTool : Option String
  contractMode : String
  sessionType : Option String
  sessionAutoswitch : String
  memSaved : MemState

/-- `AgentCore._switch_contract`. -/
def switchContractMode (st : AgentState) (mode : String) (sessionType : Option String) :
    AgentState :=
  { st with contractMode := Py.orStr (some mode) "DEFAULT", sessionType := sessionType }

/-- `AgentCore._set_pending_switch`: record the pending switch in the active
package's workspace (raising, as the source would, if there is no active
package). -/
def setPendingSwitch (st : AgentState) (mode : String) (sessionType : Option String) :
    Except PyExc AgentState :=
  match st.store.activePackage with
  | none => .error { ty := "AttributeError", msg := "NoneType has no attribute name" }
  | some p =>
    if p = "" then .error { ty := "AttributeError", msg := "NoneType has no attribute name" }
    else
      match loadWs st.store (some p) with
      | .error e => .error e
      | .ok (store2, wsArtId, w) =>
        let w2 := { w with pendingContractSwitch := some (mode, sessionType) }
        .ok { st with store := saveWs store2 p wsArtId w2 }

/-- `AgentCore._clear_pending_switch`. -/
def clearPendingSwitch (st : AgentState) : Except PyExc AgentState :=
  match st.store.activePackage with
  | none => .error { ty := "AttributeError", msg := "NoneType has no attribute name" }
  | some p =>
    if p = "" then .error { ty := "AttributeError", msg := "NoneType has no attribute name" }
    else
      match loadWs st.store (some p) with
      | .error e => .error e
      | .ok (store2, wsArtId, w) =>
        let w2 := { w with pendingContractSwitch := none }
        .ok { st with store := saveWs store2 p wsArtId w2 }

/-- `dict.setdefault` on an optional result field. -/
def osetdefault (o : Option α) (d : α) : Option α :=
  match o with
  | some x => some x
  | none => some d

/-- `AgentCore._handle_tool_switch`: honor a `switch_contract="SESSION"`
signal per the `session_autoswitch` config, possibly mutating the result
dict (`setdefault` of `ui`/`inject_once`). -/
def handleToolSwitch (st : AgentState) (res : RunResult) :
    Except PyExc (AgentState × RunResult) :=
  if res.switchContract = some "SESSION" then
    let sessType := Py.orStr res.sessionType "interview"
    if st.sessionAutoswitch = "on" then
      .ok (switchContractMode st "SESSION" (some sessType), res)
    else if st.sessionAutoswitch = "ask" then
      match setPendingSwitch st "SESSION" (some sessType) with
      | .error e => .error e
      | .ok st2 =>
        let res2 :=
          { res with
            ui := osetdefault res.ui
              "**Switch to Guided Session mode?**<br>Reply `start session` or `cancel`."
            injectOnce := osetdefault res.injectOnce
              "Confirm contract switch to SESSION (yes/no)." }
        .ok (st2, res2)
    else .ok (st, res)
  else .ok (st, res)

end Agent

namespace Agent

open AgentR

/-- `AgentCore.handle_user_message`, modelled up to the pending-contract
confirmation: `.ok (st, some result)` when the pending branch answers;
`.ok (st, none)` when the message falls through to the session tick or the
default chat flow (which invoke tools/LLMs and are settled separately). -/
def handleUserMessage (st : AgentState) (text : String) :
    Except PyExc (AgentState × Option RunResult) :=
  match st.store.activePackage with
  | none => .error { ty := "AttributeError", msg := "NoneType has no attribute name" }
  | some p =>
    if p = "" then .error { ty := "AttributeError", msg := "NoneType has no attribute name" }
    else
      match loadWs st.store (some p) with
      | .error e => .error e
      | .ok (store2, _, w) =>
        let st2 := { st with store := store2 }
        match w.pendingContractSwitch with
        | some pending =>
          let t := Py.lower (Py.strip text)
          if t ∈ (["yes", "y", "start", "start session"] : List String) then
            match clearPendingSwitch st2 with
            | .error e => .error e
            | .ok st3 =>
              let st4 := switchContractMode st3 pending.1 pending.2
              .ok (st4, some { emptyResult with
                ui := some ("**" ++ Py.orStr st4.sessionType "Session" ++ " mode enabled.**") })
          else if t ∈ (["no", "n", "cancel"] : List String) then
            match clearPendingSwitch st2 with
            | .error e => .error e
            | .ok st3 =>
              .ok (st3, some { emptyResult with
                message := some "Okay — staying in default mode." })
          else .ok (st2, none)
        | none => .ok (st2, none)

/-- `AgentCore._remember_with_langgraph`: append the artifact id and note to
the per-package conversation memory through the external saver. -/
def rememberWithLanggraph (ms : MemSaver) (packageName : Option String)
    (artifactId : String) (note : Option String) (mem : MemState) :
    Except PyExc MemState :=
  match packageName with
  | none => .ok mem
  | some p =>
    if p = "" ∨ artifactId = "" then .ok mem
    else
      match ms.get p mem with
      | .error e => .error e
      | .ok state0 =>
        let ids := if artifactId ∈ state0.1 then state0.1 else state0.1 ++ [artifactId]
        let notes :=
          match note with
          | some n => if n = "" then state0.2 else state0.2 ++ [n]
          | none => state0.2
        ms.put p (ids, notes) mem

/-- Mark `remembered=True` on an artifact of a package (in-place metadata
mutation; a no-op when package or artifact is missing). -/
def markRemembered (store : ArtStore) (p : String) (artId : String) : ArtStore :=
  match Py.alookup p store.packages with
  | none => store
  | some pkg =>
    match Py.alookup artId pkg.artifacts with
    | none => store
    | some a =>
      let a2 := { a with metadata := Py.aset "remembered" (.b true) a.metadata }
      let pkg2 := { pkg with artifacts := Py.aset artId a2 pkg.artifacts }
      { store with packages := Py.aset p pkg2 store.packages }

/-- The provenance note `f"{tool}.{out} → {art.type} ({id[:8]})"`. -/
def provenanceNote (toolName outName : String) (a : ArtifactPkg.Artifact) : String :=
  toolName ++ "." ++ outName ++ " → " ++ a.type ++ " (" ++ ArtifactPkg.shortId a.id ++ ")"

/-- The per-output loop of `_enforce_memory_policy`.  Returns the mutated
store and memory, the exception that aborted the loop (if the saver raised),
and the collected missing output names (printed as a contract-violation
warning; abandoned if an exception aborts the loop first, as in the
source). -/
def enforceOutputs (ms : MemSaver) (toolName : String) (p : String) (pkgPresent : Bool)
    (artifactIds : List (String × String)) :
    List (String × ToolReg.IOEntry) → ArtStore → MemState →
    ArtStore × MemState × Option PyExc × List String
  | [], store, mem => (store, mem, none, [])
  | (outName, spec) :: rest, store, mem =>
    if spec.remember = false then enforceOutputs ms toolName p pkgPresent artifactIds rest store mem
    else
      match Py.alookup outName artifactIds with
      | none =>
        let r := enforceOutputs ms toolName p pkgPresent artifactIds rest store mem
        (r.1, r.2.1, r.2.2.1, outName :: r.2.2.2)
      | some artId =>
        if artId = "" ∨ pkgPresent = false then
          let r := enforceOutputs ms toolName p pkgPresent artifactIds rest store mem
          (r.1, r.2.1, r.2.2.1, outName :: r.2.2.2)
        else
          let artOpt :=
            match Py.alookup p store.packages with
            | none => none
            | some pkg => Py.alookup artId pkg.artifacts
          let store2 := markRemembered store p artId
          let note := artOpt.map (fun a => provenanceNote toolName outName a)
          match rememberWithLanggraph ms (some p) artId note mem with
          | .error e => (store2, mem, some e, [])
          | .ok mem2 => enforceOutputs ms toolName p pkgPresent artifactIds rest store2 mem2

/-- `AgentCore._enforce_memory_policy`: best-effort remembering of declared
`remember` outputs.  Returns the possibly-mutated store/memory and the
exception (if any) that escaped toward `run`'s `try`. -/
def enforceMemoryPolicy (ms : MemSaver) (toolsReg : List (String × ToolDef))
    (toolName : String) (result : RunResult) (packageName : Option String)
    (store : ArtStore) (mem : MemState) : ArtStore × MemState × Option PyExc :=
  match packageName with
  | none => (store, mem, none)
  | some p =>
    if p = "" then (store, mem, none)
    else
      let outputs :=
        match Py.alookup toolName toolsReg with
        | some td => td.ioSchema.outputs
        | none => []
      let pkgPresent := (Py.alookup p store.packages).isSome
      let r := enforceOutputs ms toolName p pkgPresent result.artifactIds outputs store mem
      (r.1, r.2.1, r.2.2.1)

/-- Lexicographic string comparison by code point, as Python compares the
`_created_at` strings under `max`. -/
def strLtAux : List Char → List Char → Bool
  | [], [] => false
  | [], _ :: _ => true
  | _ :: _, [] => false
  | a :: as, b :: bs =>
    if a.toNat < b.toNat then true
    else if b.toNat < a.toNat then false
    else strLtAux as bs

/-- String `<` on the underlying character lists. -/
def strLt (a b : String) : Bool := strLtAux a.data b.data

/-- `AgentCore._latest_non_conversation_announce`: pick the most recent
non-conversation artifact of the package, dedup by `_last_announced`,
consume its announce string.  Returns the announce text (possibly empty) and
the updated store and dedup map. -/
def latestAnnounce (store : ArtStore) (lastAnnounced : List (String × String))
    (pkgName : Option String) : String × ArtStore × List (String × String) :=
  match pkgName with
  | none => ("", store, lastAnnounced)
  | some p =>
    if p = "" then ("", store, lastAnnounced)
    else
      match Py.alookup p store.packages with
      | none => ("", store, lastAnnounced)
      | some pkg =>
        let arts := (pkg.artifacts.map (fun ia => ia.2)).filter
          (fun a => a.type ≠ "conversation")
        match arts with
        | [] => ("", store, lastAnnounced)
        | a0 :: restArts =>
          let latest := restArts.foldl
            (fun acc a => if strLt acc.createdAtTag a.createdAtTag then a else acc) a0
          if Py.alookup p lastAnnounced = some latest.id then ("", store, lastAnnounced)
          else
            let fallback := "✅ Artifact created: id=\x27" ++ ArtifactPkg.shortId latest.id
              ++ "\x27 type=\x27" ++ latest.type ++ "\x27 in package \x27" ++ p ++ "\x27"
            let announce :=
              match latest.announceMark with
              | some s => if s = "" then fallback else s
              | none => fallback
            let a2 := { latest with announceMark := none }
            let pkg2 := { pkg with artifacts := Py.aset latest.id a2 pkg.artifacts }
            let store2 := { store with packages := Py.aset p pkg2 store.packages }
            (announce, store2, Py.aset p latest.id lastAnnounced)

end Agent

namespace Agent

open AgentR

/-- The refusal result returned in SESSION mode for a non-allow-listed
tool. -/
def refusalResult : RunResult :=
  { emptyResult with
    message := some ("⚠️ Tools are disabled during Guided Session mode. "
      ++ "Type `finish session` to conclude.") }

/-- The SESSION-mode tool allow-list. -/
def allowList : List String := ["execute_prompt_for_session", "llm_chat", "create_artifact"]

/-- `resolve_workspace_names(input_data or {}, artifacts, pkg_name)`: loads
(lazily creating) the workspace store of the scope package and substitutes
symbolic names; a falsy package leaves the input unchanged. -/
def resolveInput (store : ArtStore) (pkgName : Option String) (input : Resolver.PyVal) :
    Except PyExc (ArtStore × Resolver.PyVal) :=
  match pkgName with
  | none => .ok (store, input)
  | some p =>
    if p = "" then .ok (store, input)
    else
      match loadWs store (some p) with
      | .error e => .error e
      | .ok (store2, _, w) => .ok (store2, Resolver.walk w.artifactsMap input)

/-- Whether the `package` variable of `run` is truthy: an explicit-or-active
name that is non-empty and denotes an existing package. -/
def pkgTruthy (store : ArtStore) (pkgName : Option String) : Bool :=
  match pkgName with
  | some p => p ≠ "" && (Py.alookup p store.packages).isSome
  | none => false

/-- `AgentCore.run`, steps 1–10.  `Except.error` carries the mutated-so-far
state together with the propagating Python exception. -/
def run (ms : MemSaver) (toolName : String) (packageName : Option String)
    (inputData : Resolver.PyVal) (captureAsArtifact : Bool) (st : AgentState) :
    Except (AgentState × PyExc) (AgentState × RunResult) :=
  if st.contractMode = "SESSION" ∧ toolName ∉ allowList then
    .ok (st, refusalResult)
  else
    match Py.alookup toolName st.toolsReg with
    | none =>
      .error (st, { ty := "ValueError", msg := "Tool \x27" ++ toolName ++ "\x27 not found." })
    | some td =>
      let st1 := { st with lastTool := some toolName }
      let pkgName := Py.orOpt packageName st.store.activePackage
      let pkgCheck : Option PyExc :=
        match pkgName with
        | some p =>
          if p = "" then none
          else if (Py.alookup p st.store.packages).isSome then none
          else some { ty := "ValueError", msg := "Package \x27" ++ p ++ "\x27 not found." }
        | none => none
      match pkgCheck with
      | some e => .error (st1, e)
      | none =>
        match resolveInput st1.store pkgName inputData with
        | .error e => .error (st1, e)
        | .ok (store2, resolvedInput) =>
          match td.impl resolvedInput store2 pkgName with
          | .error e => .error ({ st1 with store := store2 }, e)
          | .ok (store3, result) =>
            let rec1 : HistRecord :=
              { tool := toolName, package := pkgName, input := inputData, output := result }
            let st2 := { st1 with store := store3, history := st1.history ++ [rec1] }
            let captured : Except PyExc ArtStore :=
              if captureAsArtifact ∧ pkgTruthy st.store pkgName then
                match pkgName with
                | some p =>
                  match store3.addArtifact p ("run:" ++ toolName) (.res result)
                      [("from_tool", .b true), ("snapshot", .b true)] with
                  | .error e => .error e
                  | .ok sa => .ok sa.1
                | none => .ok store3
              else .ok store3
            match captured with
            | .error e => .error (st2, e)
            | .ok store4 =>
              let r8 := enforceMemoryPolicy ms st.toolsReg toolName result pkgName
                store4 st.memSaved
              let st3 := { st2 with store := r8.1, memSaved := r8.2.1 }
              let r9 := latestAnnounce st3.store st3.lastAnnounced pkgName
              let result2 :=
                if r9.1 = "" then result
                else { result with artifactMessage := osetdefault result.artifactMessage r9.1 }
              let st4 := { st3 with store := r9.2.1, lastAnnounced := r9.2.2 }
              match handleToolSwitch st4 result2 with
              | .error e => .error (st4, e)
              | .ok str5 => .ok str5

/-- The structured error result built by `_execute_tool_safely`'s `except`
branch.  The captured stdout/stderr text and the formatted traceback are
runtime introspection, modelled as empty strings. -/
def errorResult (toolName : String) (e : PyExc) : RunResult :=
  { emptyResult with
    errorInfo := some (e.ty ++ ": " ++ e.msg)
    logs := some ""
    tracebackInfo := some ""
    message := some ("❌ `" ++ toolName ++ "` failed: " ++ e.msg)
    displayed := some false }

/-- `AgentCore._execute_tool_safely`: run a tool and convert any raised
exception into a structured error result, never propagating it. -/
def executeToolSafely (ms : MemSaver) (toolName : String) (payload : Resolver.PyVal)
    (packageName : Option String) (st : AgentState) : AgentState × RunResult :=
  match run ms toolName (Py.orOpt packageName st.store.activePackage) payload false st with
  | .ok r => r
  | .error (st2, e) => (st2, errorResult toolName e)

end Agent

namespace Agent

open AgentR

/-- A memory saver that always succeeds, with per-thread state kept in the
modelled `MemState` map. -/
def msOk : MemSaver :=
  { get := fun p mem => .ok ((Py.alookup p mem).getD ([], []))
    put := fun p v mem => .ok (Py.aset p v mem) }

/-- A memory saver whose calls always raise. -/
def msBoom : MemSaver :=
  { get := fun _ _ => .error { ty := "RuntimeError", msg := "saver down" }
    put := fun _ _ _ => .error { ty := "RuntimeError", msg := "saver down" } }

/-- The exception raised by the failing example tool. -/
def excBoom : PyExc := { ty := "RuntimeError", msg := "boom" }

/-- An empty io schema. -/
def ioEmpty : ToolReg.IOSchema := { inputs := [], outputs := [] }

/-- A baseline dispatcher state: no packages, no tools, DEFAULT mode. -/
def st0 : AgentState :=
  { store := { packages := [], activePackage := none, uuidCtr := 0,
               nowIso := "2026-01-02T00:00:00" },
    toolsReg := [], history := [], lastAnnounced := [], lastTool := none,
    contractMode := "DEFAULT", sessionType := none, sessionAutoswitch := "off",
    memSaved := [] }

/-- The baseline state in Guided Session mode. -/
def stSess : AgentState := { st0 with contractMode := "SESSION" }

/-- A state holding one tool, `boom`, whose `run` always raises. -/
def stBoom : AgentState :=
  { st0 with toolsReg := [("boom",
      { impl := fun _ _ _ => .error excBoom, ioSchema := ioEmpty })] }

/-- The stored workspace-store artifact of the example package. -/
def wsArt : ArtifactPkg.Artifact :=
  { id := "ws-1", type := wsType, content := .wsc emptyWs,
    metadata := [("name", .s wsName)], announceMark := none, createdAtTag := "" }

/-- The example package `p`, already holding its workspace store. -/
def pkgWs : ArtifactPkg.Package :=
  { name := "p", artifacts := [("ws-1", wsArt)], pipelines := [] }

/-- The registry state with `p` as active package. -/
def store5 : ArtStore :=
  { packages := [("p", pkgWs)], activePackage := some "p", uuidCtr := 0,
    nowIso := "2026-01-02T00:00:00" }

/-- The dispatcher state for the `ask` autoswitch scenario. -/
def st5 : AgentState := { st0 with store := store5, sessionAutoswitch := "ask" }

/-- A tool result signalling a switch to SESSION mode for an interview. -/
def resSwitch : RunResult :=
  { emptyResult with switchContract := some "SESSION", sessionType := some "interview" }

/-- Read back the pending contract switch recorded in the active package's
workspace store. -/
def pendingSwitchOf (st : AgentState) : Option (String × Option String) :=
  match st.store.activePackage with
  | none => none
  | some p =>
    match Py.alookup p st.store.packages with
    | none => none
    | some pkg =>
      match findWs pkg with
      | none => none
      | some iw => iw.2.pendingContractSwitch

/-- Look up an artifact of a package in a dispatcher state. -/
def artifactOf (st : AgentState) (p artId : String) : Option ArtifactPkg.Artifact :=
  match Py.alookup p st.store.packages with
  | none => none
  | some pkg => Py.alookup artId pkg.artifacts

/-- The `remembered` metadata entry of an artifact, if any. -/
def rememberedOf (st : AgentState) (p artId : String) : Option ArtifactPkg.MetaVal :=
  match artifactOf st p artId with
  | none => none
  | some a => Py.alookup "remembered" a.metadata

/-- An io schema declaring one output `x` with `remember=True`. -/
def ioSchemaX : ToolReg.IOSchema :=
  { inputs := [],
    outputs := [("x", { type := some "thing", required := false, remember := true })] }

/-- A result that reports no artifact ids. -/
def resA : RunResult := { emptyResult with message := some "made thing" }

/-- A result that maps output `x` to the created artifact id. -/
def resB : RunResult :=
  { emptyResult with message := some "made thing", artifactIds := [("x", "uuid-0")] }

/-- A tool body that creates one artifact of type `thing` in package `p` and
returns the given result dict. -/
def implMk (r : RunResult) : ToolFun := fun _ store _ =>
  match store.addArtifact "p" "thing" (.pyv (.str "v")) [] with
  | .error e => .error e
  | .ok sa => .ok (sa.1, r)

/-- The dispatcher state for the memory-policy scenario: tools `ta` (no
artifact ids reported) and `tb` (output `x` mapped to the created id), both
declaring `x` with `remember=True`. -/
def st7 : AgentState :=
  let reg : List (String × ToolDef) :=
    [("ta", { impl := implMk resA, ioSchema := ioSchemaX }),
     ("tb", { impl := implMk resB, ioSchema := ioSchemaX })]
  { st0 with store := store5, toolsReg := reg }

end Agent

/-- C6: whenever `contract_mode == "SESSION"`, `AgentCore.run` with a tool
name outside the allow-list \x7bcreate_artifact, llm_chat,
execute_prompt_for_session\x7d returns the refusal result at once, with the
state returned exactly as it was: no tool is looked up or invoked, no history
record is appended, and the artifact/workspace store is untouched. -/
theorem claim_C6 (ms : Agent.MemSaver) (toolName : String)
    (packageName : Option String) (inputData : Resolver.PyVal) (capture : Bool)
    (st : Agent.AgentState) (hMode : st.contractMode = "SESSION")
    (hTool : toolName ∉ Agent.allowList) :
    Agent.run ms toolName packageName inputData capture st
      = .ok (st, Agent.refusalResult) := by
  unfold Agent.run
  rw [if_pos ⟨hMode, hTool⟩]

theorem claim_C6_witness :
    Agent.run Agent.msOk "create_package" none (.str "x") false Agent.stSess
      = .ok (Agent.stSess, Agent.refusalResult) :=
  claim_C6 Agent.msOk "create_package" none (.str "x") false Agent.stSess rfl
    (by decide)

/-- C1 counterexample: `AgentCore.run` itself does NOT catch a tool
exception — with the `boom` tool raising, `run` propagates the exception to
its caller (the catch-and-convert lives one layer up, in
`_execute_tool_safely`). -/
theorem claim_C1_counterexample :
    ∃ st2, Agent.run Agent.msOk "boom" none (.str "x") false Agent.stBoom
      = .error (st2, Agent.excBoom) :=
  ⟨_, rfl⟩

/-- C1 (amended): the catch boundary is `_execute_tool_safely`, not `run` —
whenever `run` raises, `_execute_tool_safely` returns normally with the
structured error result, carrying the exception description in `error`, a
short `❌ ... failed` message, the captured `logs`/`traceback` diagnostics,
and `displayed=False`; the exception never propagates out of it. -/
theorem claim_C1 (ms : Agent.MemSaver) (toolName : String)
    (payload : Resolver.PyVal) (packageName : Option String)
    (st st2 : Agent.AgentState) (e : Agent.PyExc)
    (h : Agent.run ms toolName (Py.orOpt packageName st.store.activePackage)
      payload false st = .error (st2, e)) :
    Agent.executeToolSafely ms toolName payload packageName st
      = (st2, Agent.errorResult toolName e)
    ∧ (Agent.errorResult toolName e).errorInfo = some (e.ty ++ ": " ++ e.msg)
    ∧ (Agent.errorResult toolName e).message
        = some ("❌ `" ++ toolName ++ "` failed: " ++ e.msg)
    ∧ (Agent.errorResult toolName e).displayed = some false := by
  refine ⟨?_, rfl, rfl, rfl⟩
  unfold Agent.executeToolSafely
  rw [h]

theorem claim_C1_witness :
    Agent.executeToolSafely Agent.msOk "boom" (.str "x") none Agent.stBoom
      = ({ Agent.stBoom with lastTool := some "boom" },
         Agent.errorResult "boom" Agent.excBoom) :=
  (claim_C1 Agent.msOk "boom" (.str "x") none Agent.stBoom
    { Agent.stBoom with lastTool := some "boom" } Agent.excBoom rfl).1

/-- C5: with `session_autoswitch == "ask"` and contract mode DEFAULT,
handling a tool result carrying `switch_contract="SESSION"` and
`session_type="interview"` leaves the mode DEFAULT and records the pending
switch in the package workspace; a subsequent user message `yes` clears the
pending record and switches to SESSION/interview; `cancel` instead stays
DEFAULT and clears the pending record. -/
theorem claim_C5 :
    Agent.st5.contractMode = "DEFAULT" ∧ Agent.st5.sessionAutoswitch = "ask"
    ∧ ∃ st1 res1,
      Agent.handleToolSwitch Agent.st5 Agent.resSwitch = .ok (st1, res1)
      ∧ st1.contractMode = "DEFAULT"
      ∧ Agent.pendingSwitchOf st1 = some ("SESSION", some "interview")
      ∧ (∃ st2 r2, Agent.handleUserMessage st1 "yes" = .ok (st2, some r2)
          ∧ st2.contractMode = "SESSION" ∧ st2.sessionType = some "interview"
          ∧ Agent.pendingSwitchOf st2 = none)
      ∧ (∃ st3 r3, Agent.handleUserMessage st1 "cancel" = .ok (st3, some r3)
          ∧ st3.contractMode = "DEFAULT"
          ∧ Agent.pendingSwitchOf st3 = none) :=
  ⟨rfl, rfl, _, _, rfl, rfl, rfl,
    ⟨_, _, rfl, rfl, rfl, rfl⟩, ⟨_, _, rfl, rfl, rfl⟩⟩

namespace Agent

/-- A dispatcher outcome of `run`. -/
abbrev RunOut := Except (AgentState × PyExc) (AgentState × AgentR.RunResult)

/-- Whether a run returned normally. -/
def isOkR (r : RunOut) : Bool := r.toOption.isSome

/-- The state returned by a normal run (baseline state on an exception). -/
def stOf (r : RunOut) : AgentState := (r.toOption.getD (st0, AgentR.emptyResult)).1

/-- The result dict returned by a normal run. -/
def resOf (r : RunOut) : AgentR.RunResult := (r.toOption.getD (st0, AgentR.emptyResult)).2

/-- The run of `ta` (no artifact ids reported) with the working saver. -/
def runA : RunOut := run msOk "ta" none (.str "in") false st7

/-- The run of `tb` (output `x` mapped to the created id) with the working
saver. -/
def runB : RunOut := run msOk "tb" none (.str "in") false st7

/-- The run of `tb` with the always-raising saver. -/
def runC : RunOut := run msBoom "tb" none (.str "in") false st7

end Agent

/-- C7: for a tool whose io schema declares output `x` with `remember=True`:
a run whose result reports no artifact ids returns normally (no exception to
the caller) and leaves the created artifact with no `remembered` metadata —
the violation is only collected for a logged warning; a run reporting
`artifact_ids = \x7b"x": id\x7d` for the created artifact sets its metadata
`remembered=True`; and a memory saver whose calls raise never makes the run
fail — the artifact is still marked and the run returns normally. -/
theorem claim_C7 :
    (Agent.isOkR Agent.runA = true
      ∧ (Agent.resOf Agent.runA).artifactIds = []
      ∧ (Agent.artifactOf (Agent.stOf Agent.runA) "p" "uuid-0").isSome = true
      ∧ Agent.rememberedOf (Agent.stOf Agent.runA) "p" "uuid-0" = none)
    ∧ (Agent.isOkR Agent.runB = true
      ∧ (Agent.resOf Agent.runB).artifactIds = [("x", "uuid-0")]
      ∧ Agent.rememberedOf (Agent.stOf Agent.runB) "p" "uuid-0"
          = some (.b true))
    ∧ (Agent.isOkR Agent.runC = true
      ∧ Agent.rememberedOf (Agent.stOf Agent.runC) "p" "uuid-0"
          = some (.b true)) := by
  refine ⟨⟨?_, ?_, ?_, ?_⟩, ⟨?_, ?_, ?_⟩, ⟨?_, ?_⟩⟩ <;> decide
